import Mathlib

/-!
Verification development for the Resonara acoustic measurement engine.

Shallow embedding of the DSP modules (spectral band mapping, noise floor
estimation, transient detection, RT60 Schroeder integration, overtone
detection via harmonic product spectrum, compatibility scoring, and the
frequency/note converter) over exact arithmetic: audio samples and dB
magnitudes are modelled as rationals, and the transcendental conversions
of the source (Math.log10, Math.pow(10, _), Math.log2, 2 ** _) are
modelled with Real.logb and real rpow.
-/

namespace Resonara

/-- JavaScript Math.round on a rational: round half toward positive infinity. -/
def jsRound (q : ℚ) : ℤ := ⌊q + 1/2⌋

/-- JavaScript Math.round on a real: round half toward positive infinity. -/
noncomputable def jsRoundR (x : ℝ) : ℤ := ⌊x + 1/2⌋

/-- The seven fixed energy-centre bands (closed enumeration of the literal
string keys used by the source). -/
inductive EnergyCentre
  | root
  | sacral
  | solarPlexus
  | heart
  | throat
  | thirdEye
  | crown
deriving DecidableEq, Fintype, Repr

/-- Lower bound in Hz of each band, from the literal ENERGY_BANDS table. -/
def bandLow : EnergyCentre → ℚ
  | .root => 32
  | .sacral => 128
  | .solarPlexus => 256
  | .heart => 384
  | .throat => 512
  | .thirdEye => 768
  | .crown => 1024

/-- Upper bound in Hz of each band, from the literal ENERGY_BANDS table. -/
def bandHigh : EnergyCentre → ℚ
  | .root => 128
  | .sacral => 256
  | .solarPlexus => 384
  | .heart => 512
  | .throat => 768
  | .thirdEye => 1024
  | .crown => 4000

/-- CENTRE_ORDER: the insertion / iteration order of the seven bands. -/
def CENTRE_ORDER : List EnergyCentre :=
  [.root, .sacral, .solarPlexus, .heart, .throat, .thirdEye, .crown]

/-! ## Spectral band mapper (src/lib/audio/fftAnalyser.ts) -/

/-- binToFrequency: convert FFT bin index to frequency in Hz. -/
def binToFrequency (bin : ℕ) (sampleRate fftSize : ℚ) : ℚ :=
  (bin : ℚ) * sampleRate / fftSize

/-- frequencyToBin: convert frequency in Hz to the nearest FFT bin index,
via Math.round. -/
def frequencyToBin (freq sampleRate fftSize : ℚ) : ℤ :=
  jsRound (freq * fftSize / sampleRate)

/-- Index set summed by bandEnergy for a band [lowFreq, highFreq]: the loop
`for (i = lowBin; i <= highBin && i < frequencyData.length; i++)` — both
endpoint bins included, clamped by the frame length. -/
def bandBins (lowFreq highFreq sampleRate fftSize : ℚ) (len : ℕ) : List ℤ :=
  let lo := frequencyToBin lowFreq sampleRate fftSize
  let hi := min (frequencyToBin highFreq sampleRate fftSize) ((len : ℤ) - 1)
  if lo ≤ hi then (List.range (hi - lo).toNat.succ).map (fun k => lo + k) else []

/-- bandEnergy: arithmetic mean of the dB values over the band's bin range;
negative infinity (⊥) when the range is empty. -/
def bandEnergy (frequencyData : List ℚ) (lowFreq highFreq sampleRate fftSize : ℚ) :
    EReal :=
  let bins := bandBins lowFreq highFreq sampleRate fftSize frequencyData.length
  if bins.length = 0 then ⊥
  else ((((bins.map (fun i => frequencyData.getD i.toNat 0)).sum / bins.length : ℚ) : ℝ) : EReal)

/-! ## frequencyToCentre (compatibilityScorer.ts) -/

/-- HarmonicPeak: a spectral peak classified as a harmonic. -/
structure HarmonicPeak where
  frequency : ℚ
  amplitude : ℚ
  harmonicNumber : ℤ
deriving DecidableEq, Repr

/-- frequencyToCentre: first band (in CENTRE_ORDER) whose [low, high) range
contains the frequency; falls back to crown for frequencies ≥ 1024 Hz. -/
def frequencyToCentre (hz : ℚ) : Option EnergyCentre :=
  match CENTRE_ORDER.find? (fun b => decide (bandLow b ≤ hz ∧ hz < bandHigh b)) with
  | some b => some b
  | none => if 1024 ≤ hz then some .crown else none

/-! ## Compatibility scorer (compatibilityScorer.ts) -/

/-- Default noise floor dB used when room data is unavailable. -/
def DEFAULT_NOISE_DB : ℚ := -60

/-- Input of computeCompatibilityScore. -/
structure ScoringInput where
  instrumentCentres : EnergyCentre → ℚ
  noiseFloorBands : Option (EnergyCentre → ℚ)
  overtoneConfidence : ℚ
  harmonics : List HarmonicPeak

/-- Noise level used for one band: the room's band level, or the default. -/
def noiseLevelAt (noiseFloorBands : Option (EnergyCentre → ℚ)) (b : EnergyCentre) : ℚ :=
  match noiseFloorBands with
  | some f => f b
  | none => DEFAULT_NOISE_DB

/-- Sum over the 7 bands of max(0, instrument level − noise level). -/
def headroomSum (inp : ScoringInput) : ℚ :=
  (CENTRE_ORDER.map
    (fun b => max 0 (inp.instrumentCentres b - noiseLevelAt inp.noiseFloorBands b))).sum

/-- Average headroom across the 7 bands. -/
def avgHeadroom (inp : ScoringInput) : ℚ :=
  headroomSum inp / (CENTRE_ORDER.length : ℚ)

/-- Resonance complement component, capped at 40 points. -/
def resonanceScore (inp : ScoringInput) : ℚ :=
  min 40 (avgHeadroom inp / 30 * 40)

/-- Number of bands where the instrument is more than 6 dB above the noise. -/
def activatedCentres (inp : ScoringInput) : ℕ :=
  CENTRE_ORDER.countP
    (fun b => decide (6 < inp.instrumentCentres b - noiseLevelAt inp.noiseFloorBands b))

/-- Spectral richness component (activated fraction of 7 bands × 35). -/
def richnessScore (inp : ScoringInput) : ℚ :=
  (activatedCentres inp : ℚ) / (CENTRE_ORDER.length : ℚ) * 35

/-- Signal clarity component (blend of confidence and harmonic count × 25). -/
def clarityScore (inp : ScoringInput) : ℚ :=
  (inp.overtoneConfidence * (6/10) + min 1 ((inp.harmonics.length : ℚ) / 6) * (4/10)) * 25

/-- computeCompatibilityScore: the three components, rounded and clamped
to the integer range [0, 100]. -/
def computeCompatibilityScore (inp : ScoringInput) : ℤ :=
  max 0 (min 100 (jsRound (resonanceScore inp + richnessScore inp + clarityScore inp)))

/-- computeCentreCoverage: normalise band dB from [-80, 0] to [0, 1]. -/
def computeCentreCoverage (instrumentCentres : EnergyCentre → ℚ) :
    EnergyCentre → ℚ :=
  fun b => max 0 (min 1 ((instrumentCentres b + 80) / 80))

/-- Raise every instrument band level by the same offset, keeping the noise
floor, confidence and harmonics fixed. -/
def raiseAllBands (inp : ScoringInput) (d : ℚ) : ScoringInput :=
  { inp with instrumentCentres := fun b => inp.instrumentCentres b + d }

/-- Scoring input A for the C4 counterexample: every band 7 dB above the
default noise floor. -/
def scoreInputA : ScoringInput :=
  { instrumentCentres := fun _ => -53
    noiseFloorBands := none
    overtoneConfidence := 0
    harmonics := [] }

/-- Scoring input B for the C4 counterexample: the same average headroom
concentrated on the root band alone. -/
def scoreInputB : ScoringInput :=
  { instrumentCentres := fun b => match b with | .root => -11 | _ => -60
    noiseFloorBands := none
    overtoneConfidence := 0
    harmonics := [] }

/-! ## Transient detector (src/lib/audio/transientDetector.ts) -/

/-- TransientEvent: one detected onset. The `energyQuot` field is the
source's energyRatio (window energy over background energy). -/
structure TransientEvent where
  sampleIndex : ℕ
  timeSeconds : ℚ
  peakAmplitude : ℚ
  energyQuot : ℚ
deriving DecidableEq, Repr

/-- TransientDetectorConfig. -/
structure TransientDetectorConfig where
  thresholdDB : ℚ
  minAmplitude : ℚ
  minIntervalSeconds : ℚ
  windowSize : ℕ
deriving DecidableEq, Repr

/-- DEFAULT_CONFIG: thresholdDB 6, minAmplitude 0.1, minIntervalSeconds 0.3,
windowSize 512. -/
def DEFAULT_CONFIG : TransientDetectorConfig :=
  ⟨6, 1/10, 3/10, 512⟩

/-- Number of complete analysis windows in the buffer. -/
def numWindows (buf : List ℚ) (windowSize : ℕ) : ℕ :=
  buf.length / windowSize

/-- avgWindowSize = min(20, numWindows): background averaging length. -/
def avgWindowSize (buf : List ℚ) (windowSize : ℕ) : ℕ :=
  min 20 (numWindows buf windowSize)

/-- minIntervalSamples = Math.floor(minIntervalSeconds * sampleRate). -/
def minIntervalSamples (cfg : TransientDetectorConfig) (sampleRate : ℚ) : ℤ :=
  ⌊cfg.minIntervalSeconds * sampleRate⌋

/-- Mean-squared energy of window w. -/
def windowEnergy (buf : List ℚ) (windowSize w : ℕ) : ℚ :=
  ((List.range windowSize).map
    (fun i => buf.getD (w * windowSize + i) 0 * buf.getD (w * windowSize + i) 0)).sum
    / (windowSize : ℚ)

/-- Mean energy of the avgW windows preceding window w (background estimate). -/
def bgWindowEnergy (buf : List ℚ) (windowSize avgW w : ℕ) : ℚ :=
  ((List.range avgW).map (fun j => windowEnergy buf windowSize (w - avgW + j))).sum
    / (avgW : ℚ)

/-- Energy quotient of window w over its background, 0 if the background is 0. -/
def energyQuotAt (buf : List ℚ) (windowSize avgW w : ℕ) : ℚ :=
  if 0 < bgWindowEnergy buf windowSize avgW w then
    windowEnergy buf windowSize w / bgWindowEnergy buf windowSize avgW w
  else 0

/-- Peak absolute sample value within window w. -/
def windowPeak (buf : List ℚ) (windowSize w : ℕ) : ℚ :=
  (List.range windowSize).foldl (fun peak i => max peak |buf.getD (w * windowSize + i) 0|) 0

/-- Linear threshold 10 ^ (thresholdDB / 10). -/
noncomputable def thresholdLinear (thresholdDB : ℚ) : ℝ :=
  (10 : ℝ) ^ ((thresholdDB : ℝ) / 10)

/-- Loop state of detectTransients: the interval gate and the events so far. -/
structure DetectState where
  lastDetected : ℤ
  events : List TransientEvent
deriving DecidableEq, Repr

open Classical in
/-- One iteration of the detectTransients loop at window w: fire when the
energy quotient exceeds the linear threshold and the interval gate passes;
on fire, suppress quietly (state unchanged) when the window peak is below
minAmplitude, otherwise record the event and advance the gate. -/
noncomputable def detectStep (buf : List ℚ) (sampleRate : ℚ)
    (cfg : TransientDetectorConfig) (avgW : ℕ) (st : DetectState) (w : ℕ) :
    DetectState :=
  let q := energyQuotAt buf cfg.windowSize avgW w
  let sampleIndex := w * cfg.windowSize
  if thresholdLinear cfg.thresholdDB < (q : ℝ) ∧
      minIntervalSamples cfg sampleRate ≤ (sampleIndex : ℤ) - st.lastDetected then
    if windowPeak buf cfg.windowSize w < cfg.minAmplitude then st
    else
      ⟨(sampleIndex : ℤ),
        st.events ++ [⟨sampleIndex, (sampleIndex : ℚ) / sampleRate,
          windowPeak buf cfg.windowSize w, q⟩]⟩
  else st

/-- detectTransients: scan windows avgWindowSize .. numWindows−1 with the
interval gate initialised to −minIntervalSamples. -/
noncomputable def detectTransients (buf : List ℚ) (sampleRate : ℚ)
    (cfg : TransientDetectorConfig) : List TransientEvent :=
  let nw := numWindows buf cfg.windowSize
  let aw := avgWindowSize buf cfg.windowSize
  ((List.range' aw (nw - aw)).foldl (detectStep buf sampleRate cfg aw)
    ⟨-(minIntervalSamples cfg sampleRate), []⟩).events

/-- Computable twin of detectStep for a rational linear threshold. -/
def detectStepQ (tq : ℚ) (buf : List ℚ) (sampleRate : ℚ)
    (cfg : TransientDetectorConfig) (avgW : ℕ) (st : DetectState) (w : ℕ) :
    DetectState :=
  let q := energyQuotAt buf cfg.windowSize avgW w
  let sampleIndex := w * cfg.windowSize
  if tq < q ∧
      minIntervalSamples cfg sampleRate ≤ (sampleIndex : ℤ) - st.lastDetected then
    if windowPeak buf cfg.windowSize w < cfg.minAmplitude then st
    else
      ⟨(sampleIndex : ℤ),
        st.events ++ [⟨sampleIndex, (sampleIndex : ℚ) / sampleRate,
          windowPeak buf cfg.windowSize w, q⟩]⟩
  else st

/-- Computable twin of detectTransients for a rational linear threshold. -/
def detectTransientsQ (tq : ℚ) (buf : List ℚ) (sampleRate : ℚ)
    (cfg : TransientDetectorConfig) : List TransientEvent :=
  let nw := numWindows buf cfg.windowSize
  let aw := avgWindowSize buf cfg.windowSize
  ((List.range' aw (nw - aw)).foldl (detectStepQ tq buf sampleRate cfg aw)
    ⟨-(minIntervalSamples cfg sampleRate), []⟩).events

/-- extractImpulseResponse: slice the decay segment after a transient. -/
def extractImpulseResponse (buf : List ℚ) (transient : TransientEvent)
    (durationSeconds sampleRate : ℚ) : List ℚ :=
  let startSample := transient.sampleIndex
  let len := min ⌊durationSeconds * sampleRate⌋ ((buf.length : ℤ) - startSample)
  if len ≤ 0 then [] else (buf.drop startSample).take len.toNat

/-- Concrete buffer for the transient-detector runs: 20 quiet windows of
amplitude 0.1 followed by spikes at windows 20 and 22 (windowSize 1). -/
def transBuf : List ℚ :=
  List.replicate 20 (1/10) ++ [1, 1/10, 1, 1/10]

/-- Concrete config: thresholdDB 10 (linear threshold exactly 10),
minAmplitude 0.1, minIntervalSeconds 0.25, windowSize 1. -/
def transCfg : TransientDetectorConfig :=
  ⟨10, 1/10, 1/4, 1⟩

/-- First event of the concrete run. -/
def transEv1 : TransientEvent :=
  ⟨20, 2, 1, 100⟩

/-- Second event of the concrete run. -/
def transEv2 : TransientEvent :=
  ⟨22, 11/5, 1, 2000/119⟩

/-- Buffer for the C8 suppressed-window witness: a spike of amplitude 0.4
after 20 quiet windows. -/
def quietSpikeBuf : List ℚ :=
  List.replicate 20 (1/10) ++ [2/5]

/-- Config for the C8 witness: minAmplitude 0.5 so the 0.4 spike is
amplitude-gated. -/
def quietSpikeCfg : TransientDetectorConfig :=
  ⟨10, 1/2, 1/4, 1⟩

/-! ## RT60 estimator (src/lib/audio/rt60.ts) -/

/-- Squared samples (instantaneous energy). -/
def squaredSamples (impulseResponse : List ℚ) : List ℚ :=
  impulseResponse.map (fun x => x * x)

/-- Backward integration: suffix sums, mirroring
`energy[i] = energy[i+1] + squared[i]` with `energy[last] = squared[last]`. -/
def suffixSums : List ℚ → List ℚ
  | [] => []
  | q :: rest => (q + (suffixSums rest).headD 0) :: suffixSums rest

/-- The backward-integrated energy curve of an impulse response. -/
def energyCurveOf (impulseResponse : List ℚ) : List ℚ :=
  suffixSums (squaredSamples impulseResponse)

/-- Total integrated energy: the first entry of the energy curve. -/
def totalEnergy (impulseResponse : List ℚ) : ℚ :=
  (energyCurveOf impulseResponse).headD 0

/-- schroederIntegration: energy decay curve in dB relative to the total
energy, or the unconverted energy curve when the total energy is ≤ 0. -/
noncomputable def schroederIntegration (impulseResponse : List ℚ) : List ℝ :=
  if totalEnergy impulseResponse ≤ 0 then
    (energyCurveOf impulseResponse).map (fun e : ℚ => (e : ℝ))
  else (energyCurveOf impulseResponse).map
    (fun e : ℚ => 10 * Real.logb 10 ((e : ℝ) / (totalEnergy impulseResponse : ℝ)))

open Classical in
/-- Index of the first curve value ≤ thr (the source's linear scan with −1
when absent, as an Option). -/
noncomputable def firstCrossing (thr : ℝ) : List ℝ → Option ℕ
  | [] => none
  | x :: xs => if x ≤ thr then some 0 else (firstCrossing thr xs).map (fun n => n + 1)

/-- Fallback estimate from the −10 dB point (0 when absent or at index 0),
extrapolated ×6. -/
noncomputable def rt60Fallback (decayCurve : List ℝ) (sampleRate : ℚ) : ℚ :=
  match firstCrossing (-10) decayCurve with
  | none => 0
  | some t10 => if t10 = 0 then 0 else (t10 : ℚ) / sampleRate * 6

/-- estimateRT60: T20 extrapolation from the −5 dB and −25 dB points when
both exist in order, otherwise the −10 dB fallback. -/
noncomputable def estimateRT60 (decayCurve : List ℝ) (sampleRate : ℚ) : ℚ :=
  match firstCrossing (-5) decayCurve, firstCrossing (-25) decayCurve with
  | some t5, some t25 =>
    if t5 < t25 then ((t25 : ℚ) - (t5 : ℚ)) / sampleRate * 3
    else rt60Fallback decayCurve sampleRate
  | some _, none => rt60Fallback decayCurve sampleRate
  | none, _ => rt60Fallback decayCurve sampleRate

/-- computeRT60: Schroeder integration then RT60 estimation. -/
noncomputable def computeRT60 (impulseResponse : List ℚ) (sampleRate : ℚ) : ℚ :=
  estimateRT60 (schroederIntegration impulseResponse) sampleRate

/-- Concrete impulse response for the C7 witness: energy drops from 10^6+1
to 1, so the decay curve crosses −25 dB at index 1. -/
def padIr : List ℚ :=
  [1000, 1]

/-! ## Overtone detector (overtoneDetector.ts) -/

/-- dB to linear amplitude: 10 ^ (db / 20). -/
noncomputable def dbToAmp (db : ℚ) : ℝ :=
  (10 : ℝ) ^ ((db : ℝ) / 20)

/-- The HPS value at bin i: the linear amplitude at bin i multiplied by the
linear amplitudes at bins i·h for h = 2..numHarmonics that are in range. -/
noncomputable def hpsProduct (spec : List ℚ) (numHarmonics i : ℕ) : ℝ :=
  dbToAmp (spec.getD i 0) *
    ∏ h ∈ Finset.Icc 2 numHarmonics,
      (if i * h < spec.length then dbToAmp (spec.getD (i * h) 0) else 1)

/-- Sum of the dB values entering the HPS product at bin i (its exponent
pattern: hpsProduct = 10 ^ (hpsExpSum / 20)). -/
def hpsExpSum (spec : List ℚ) (numHarmonics i : ℕ) : ℚ :=
  spec.getD i 0 +
    ∑ h ∈ Finset.Icc 2 numHarmonics,
      (if i * h < spec.length then spec.getD (i * h) 0 else 0)

/-- Lowest HPS bin scanned: ceil(20 · fftSize / sampleRate) (≈ 20 Hz). -/
def hpsMinBin (sampleRate fftSize : ℚ) : ℕ :=
  (Int.ceil (20 * fftSize / sampleRate)).toNat

open Classical in
/-- One step of the HPS peak scan: running maximum (strict improvement),
starting from −Infinity (⊥). -/
noncomputable def hpsScanStep (spec : List ℚ) (numHarmonics : ℕ)
    (st : EReal × ℕ) (i : ℕ) : EReal × ℕ :=
  if st.1 < ((hpsProduct spec numHarmonics i : ℝ) : EReal) then
    (((hpsProduct spec numHarmonics i : ℝ) : EReal), i)
  else st

/-- Bin of the maximum HPS value over [minBin, halfLength); minBin when the
scan range is empty. -/
noncomputable def hpsPeakBin (spec : List ℚ) (sampleRate fftSize : ℚ)
    (numHarmonics : ℕ) : ℕ :=
  let minBin := hpsMinBin sampleRate fftSize
  let halfLength := spec.length / numHarmonics
  ((List.range' minBin (halfLength - minBin)).foldl
    (hpsScanStep spec numHarmonics) (⊥, minBin)).2

/-- harmonicProductSpectrum: the fundamental frequency in Hz. -/
noncomputable def harmonicProductSpectrum (spec : List ℚ) (sampleRate fftSize : ℚ)
    (numHarmonics : ℕ) : ℚ :=
  (hpsPeakBin spec sampleRate fftSize numHarmonics : ℚ) * sampleRate / fftSize

/-- Computable twin of hpsScanStep tracking the dB exponent sum instead of
the linear HPS value (none plays the role of −Infinity). -/
def hpsScanStepQ (spec : List ℚ) (numHarmonics : ℕ)
    (st : Option ℚ × ℕ) (i : ℕ) : Option ℚ × ℕ :=
  match st.1 with
  | none => (some (hpsExpSum spec numHarmonics i), i)
  | some m =>
    if m < hpsExpSum spec numHarmonics i then (some (hpsExpSum spec numHarmonics i), i)
    else st

/-- Computable twin of hpsPeakBin. -/
def hpsPeakBinQ (spec : List ℚ) (sampleRate fftSize : ℚ) (numHarmonics : ℕ) : ℕ :=
  let minBin := hpsMinBin sampleRate fftSize
  let halfLength := spec.length / numHarmonics
  ((List.range' minBin (halfLength - minBin)).foldl
    (hpsScanStepQ spec numHarmonics) (none, minBin)).2

/-- A spectral peak found by findSpectralPeaks. -/
structure SpectralPeak where
  bin : ℕ
  frequency : ℚ
  amplitude : ℚ
deriving DecidableEq, Repr

/-- The scan of findSpectralPeaks: local maxima over ±2 bins above the dB
threshold, separated from the previously accepted peak by ≥ minDistance. -/
def peakScan (spec : List ℚ) (sampleRate fftSize thresholdDB : ℚ)
    (minDistance : ℕ) : List SpectralPeak :=
  (List.range' 2 (spec.length - 4)).foldl
    (fun peaks i =>
      if thresholdDB < spec.getD i 0 ∧
          spec.getD (i - 1) 0 < spec.getD i 0 ∧ spec.getD (i + 1) 0 < spec.getD i 0 ∧
          spec.getD (i - 2) 0 < spec.getD i 0 ∧ spec.getD (i + 2) 0 < spec.getD i 0 then
        match peaks.getLast? with
        | none =>
          peaks ++ [⟨i, (i : ℚ) * sampleRate / fftSize, spec.getD i 0⟩]
        | some p =>
          if (minDistance : ℤ) ≤ (i : ℤ) - (p.bin : ℤ) then
            peaks ++ [⟨i, (i : ℚ) * sampleRate / fftSize, spec.getD i 0⟩]
          else peaks
      else peaks)
    []

/-- findSpectralPeaks: the scan sorted descending by amplitude (stable). -/
def findSpectralPeaks (spec : List ℚ) (sampleRate fftSize thresholdDB : ℚ)
    (minDistance : ℕ) : List SpectralPeak :=
  List.insertionSort (fun a b => b.amplitude ≤ a.amplitude)
    (peakScan spec sampleRate fftSize thresholdDB minDistance)

/-- Harmonic classification of the top 16 peaks against the fundamental:
accept when the frequency ratio rounds to an integer n ≥ 1 within 0.08. -/
def classifyHarmonics (fundamental : ℚ) (peaks : List SpectralPeak) :
    List HarmonicPeak :=
  (peaks.take 16).foldl
    (fun hs p =>
      let r := p.frequency / fundamental
      let n := jsRound r
      if 1 ≤ n ∧ |r - (n : ℚ)| < 2/25 then
        hs ++ [⟨p.frequency, p.amplitude, n⟩]
      else hs)
    []

/-- OvertoneResult. -/
structure OvertoneResult where
  fundamental : ℚ
  harmonics : List HarmonicPeak
  confidence : ℚ
deriving DecidableEq, Repr

/-- detectOvertones: fundamental via HPS (numHarmonics 5), peaks via
findSpectralPeaks (threshold −60 dB, min distance 5 bins), harmonics by
ratio classification; confidence = accepted / min(peak count, 10), 0 when
no peaks exist. -/
noncomputable def detectOvertones (spec : List ℚ) (sampleRate fftSize : ℚ) :
    OvertoneResult :=
  let fundamental := harmonicProductSpectrum spec sampleRate fftSize 5
  let peaks := findSpectralPeaks spec sampleRate fftSize (-60) 5
  let harmonics := classifyHarmonics fundamental peaks
  let confidence :=
    if 0 < peaks.length then (harmonics.length : ℚ) / ((min peaks.length 10 : ℕ) : ℚ)
    else 0
  ⟨fundamental, harmonics, confidence⟩

/-- Concrete spectrum for the C2 counterexample: 0 dB peaks at bins
5, 10, …, 55 over a −100 dB floor, 58 bins, sampleRate 2048, fftSize 512
(so each bin is 4 Hz and the HPS fundamental lands on bin 5 = 20 Hz);
all 11 peaks classify as harmonics 1..11 while only min(11, 10) = 10
divides the confidence. -/
def overSpec : List ℚ :=
  (List.range 58).map (fun i => if i ≠ 0 ∧ i % 5 = 0 then 0 else -100)

/-- The spectral peaks of overSpec, written out (frequencies 4·bin Hz). -/
def overPeaks : List SpectralPeak :=
  [⟨5, ((5:ℕ):ℚ) * 2048 / 512, 0⟩,
    ⟨10, ((10:ℕ):ℚ) * 2048 / 512, 0⟩,
    ⟨15, ((15:ℕ):ℚ) * 2048 / 512, 0⟩,
    ⟨20, ((20:ℕ):ℚ) * 2048 / 512, 0⟩,
    ⟨25, ((25:ℕ):ℚ) * 2048 / 512, 0⟩,
    ⟨30, ((30:ℕ):ℚ) * 2048 / 512, 0⟩,
    ⟨35, ((35:ℕ):ℚ) * 2048 / 512, 0⟩,
    ⟨40, ((40:ℕ):ℚ) * 2048 / 512, 0⟩,
    ⟨45, ((45:ℕ):ℚ) * 2048 / 512, 0⟩,
    ⟨50, ((50:ℕ):ℚ) * 2048 / 512, 0⟩,
    ⟨55, ((55:ℕ):ℚ) * 2048 / 512, 0⟩]

/-! ## Note mapper (noteMapper.ts) -/

/-- NOTE_NAMES, 12-TET note letters starting from C. -/
def NOTE_NAMES : List String :=
  ["C", "C#", "D", "D#", "E", "F"] ++ ["F#", "G", "G#", "A", "A#", "B"]

/-- NoteInfo. -/
structure NoteInfo where
  name : String
  noteName : String
  octave : ℤ
  exactFrequency : ℝ
  cents : ℤ

/-- frequencyToNote: nearest 12-TET note (A4 = 440 Hz), with cents deviation
and the nearest note's frequency rounded to 2 decimals. -/
noncomputable def frequencyToNote (hz : ℝ) : NoteInfo :=
  let semitones := 12 * Real.logb 2 (hz / 440)
  let roundedSemitones := jsRoundR semitones
  let cents := jsRoundR ((semitones - (roundedSemitones : ℝ)) * 100)
  let midi := 69 + roundedSemitones
  let noteIndex := ((midi.tmod 12) + 12).tmod 12
  let octave := midi.fdiv 12 - 1
  let noteName := NOTE_NAMES.getD noteIndex.toNat ""
  let exactFrequency :=
    ((jsRoundR (440 * (2 : ℝ) ^ ((roundedSemitones : ℝ) / 12) * 100) : ℤ) : ℝ) / 100
  { name := noteName ++ toString octave
    noteName := noteName
    octave := octave
    exactFrequency := exactFrequency
    cents := cents }

/-- noteToFrequency: frequency of a note name and octave (0 for an unknown
note name). -/
noncomputable def noteToFrequency (noteName : String) (octave : ℤ) : ℝ :=
  match NOTE_NAMES.findIdx? (fun s => s == noteName) with
  | none => 0
  | some index =>
    440 * (2 : ℝ) ^ ((((octave + 1) * 12 + (index : ℤ) - 69 : ℤ) : ℝ) / 12)

/-- The exact 12-TET frequency hz₀ = 440 · 2^(−9/12) (a C4), used as the C3
counterexample input: its exactFrequency field is rounded to 261.63 while
the recovered frequency is the unrounded 440 · 2^(−9/12). -/
noncomputable def c4NoteHz : ℝ :=
  440 * (2 : ℝ) ^ ((-9 : ℝ) / 12)

/-! ## Noise floor estimator (src/lib/audio/noiseFloor.ts) -/

/-- Quality rating for the noise floor. -/
inductive NoiseRating
  | excellent
  | good
  | fair
  | poor
deriving DecidableEq, Repr

/-- computeRMS of a time-domain buffer. -/
noncomputable def computeRMS (buf : List ℚ) : ℝ :=
  Real.sqrt (((buf.map (fun x => x * x)).sum / (buf.length : ℚ) : ℚ) : ℝ)

/-- linearToDB: 20 · log10(max(value, 1e−10)). -/
noncomputable def linearToDB (value : ℚ) : ℝ :=
  20 * Real.logb 10 ((max value (1 / 10 ^ 10) : ℚ) : ℝ)

open Classical in
/-- Rating from the average dB level: <−50 excellent, <−40 good, <−30 fair,
else poor. -/
noncomputable def ratingOf (averageDB : ℝ) : NoiseRating :=
  if averageDB < -50 then .excellent
  else if averageDB < -40 then .good
  else if averageDB < -30 then .fair
  else .poor

/-- Maximum of a list of samples (Math.max over a non-empty spread; the
empty case is never reached under the non-empty-samples hypotheses used
here). -/
def listMax : List ℚ → ℚ
  | [] => 0
  | x :: xs => xs.foldl max x

/-- Per-band accumulation over all snapshots: total dB sum and bin count of
one band's bin range across every snapshot. -/
def bandAccum (snapshots : List (List ℚ)) (lowFreq highFreq sampleRate fftSize : ℚ) :
    ℚ × ℕ :=
  snapshots.foldl
    (fun acc s =>
      let bins := bandBins lowFreq highFreq sampleRate fftSize s.length
      (acc.1 + (bins.map (fun i => s.getD i.toNat 0)).sum, acc.2 + bins.length))
    (0, 0)

/-- One band's noise level: mean across snapshots, −Infinity (⊥) when no
bins were accumulated. -/
def noiseBandLevel (snapshots : List (List ℚ))
    (lowFreq highFreq sampleRate fftSize : ℚ) : EReal :=
  let acc := bandAccum snapshots lowFreq highFreq sampleRate fftSize
  if 0 < acc.2 then (((acc.1 / (acc.2 : ℚ) : ℚ) : ℝ) : EReal) else ⊥

/-- NoiseFloorResult; bandLevels is none when no snapshots were supplied
(the source leaves the record empty in that case). -/
structure NoiseFloorResult where
  averageDB : ℝ
  peakDB : ℝ
  estimatedDBA : ℝ
  bandLevels : Option (EnergyCentre → EReal)
  rating : NoiseRating

/-- analyseNoiseFloor: average/peak RMS converted to dB, per-band levels
from the frequency snapshots, rating from the average dB. -/
noncomputable def analyseNoiseFloor (samples : List ℚ)
    (frequencySnapshots : List (List ℚ)) (sampleRate fftSize : ℚ) :
    NoiseFloorResult :=
  let avgRMS := samples.sum / (samples.length : ℚ)
  let averageDB := linearToDB avgRMS
  { averageDB := averageDB
    peakDB := linearToDB (listMax samples)
    estimatedDBA := averageDB + 3
    bandLevels :=
      if 0 < frequencySnapshots.length then
        some (fun b =>
          noiseBandLevel frequencySnapshots (bandLow b) (bandHigh b) sampleRate fftSize)
      else none
    rating := ratingOf averageDB }

/-! ## Theorems -/

/-- C1 (amended): the literal Hz ranges of the 7 bands are pairwise
disjoint, so frequencyToCentre maps every frequency to at most one band,
and every frequency ≥ 1024 Hz maps to crown. (The bin ranges that
bandEnergy derives are inclusive of both endpoint bins and are NOT pairwise
disjoint: adjacent bands share their boundary bin — see the
counterexample.) -/
theorem frequencyToCentre_at_most_one_band :
    (∀ b1 b2 : EnergyCentre, b1 ≠ b2 → ∀ hz : ℚ,
      ¬((bandLow b1 ≤ hz ∧ hz < bandHigh b1) ∧ (bandLow b2 ≤ hz ∧ hz < bandHigh b2)))
    ∧ ∀ hz : ℚ, 1024 ≤ hz → frequencyToCentre hz = some EnergyCentre.crown := by
  constructor
  · have key : ∀ b1 b2 : EnergyCentre, b1 ≠ b2 →
        bandHigh b1 ≤ bandLow b2 ∨ bandHigh b2 ≤ bandLow b1 := by decide
    rintro b1 b2 hne hz ⟨⟨l1, u1⟩, l2, u2⟩
    rcases key b1 b2 hne with h | h <;> linarith
  · intro hz hhz
    unfold frequencyToCentre CENTRE_ORDER
    set p : EnergyCentre → Bool :=
      fun b => decide (bandLow b ≤ hz ∧ hz < bandHigh b) with hp
    have hfalse : ∀ b : EnergyCentre, bandHigh b ≤ 1024 → ¬(p b = true) := by
      intro b hb
      simp only [hp, decide_eq_true_iff]
      rintro ⟨h1, h2⟩
      linarith
    rcases lt_or_le hz 4000 with h4 | h4
    · rw [List.find?_cons_of_neg _ (hfalse EnergyCentre.root (by norm_num [bandHigh])),
        List.find?_cons_of_neg _ (hfalse EnergyCentre.sacral (by norm_num [bandHigh])),
        List.find?_cons_of_neg _ (hfalse EnergyCentre.solarPlexus (by norm_num [bandHigh])),
        List.find?_cons_of_neg _ (hfalse EnergyCentre.heart (by norm_num [bandHigh])),
        List.find?_cons_of_neg _ (hfalse EnergyCentre.throat (by norm_num [bandHigh])),
        List.find?_cons_of_neg _ (hfalse EnergyCentre.thirdEye (by norm_num [bandHigh])),
        List.find?_cons_of_pos _ (show p EnergyCentre.crown = true from
          decide_eq_true_iff.mpr
            ⟨by simpa [bandLow] using hhz, by simpa [bandHigh] using h4⟩)]
    · rw [List.find?_cons_of_neg _ (hfalse EnergyCentre.root (by norm_num [bandHigh])),
        List.find?_cons_of_neg _ (hfalse EnergyCentre.sacral (by norm_num [bandHigh])),
        List.find?_cons_of_neg _ (hfalse EnergyCentre.solarPlexus (by norm_num [bandHigh])),
        List.find?_cons_of_neg _ (hfalse EnergyCentre.heart (by norm_num [bandHigh])),
        List.find?_cons_of_neg _ (hfalse EnergyCentre.throat (by norm_num [bandHigh])),
        List.find?_cons_of_neg _ (hfalse EnergyCentre.thirdEye (by norm_num [bandHigh])),
        List.find?_cons_of_neg _ (show ¬(p EnergyCentre.crown = true) from by
          simp only [hp, decide_eq_true_iff]
          rintro ⟨h1, h2⟩
          simp only [bandHigh] at h2
          linarith)]
      simp only [List.find?_nil]
      rw [if_pos hhz]

/-- C1 counterexample: at the canonical sample rate 44100 and FFT size 8192
(frame length 4096), bin 24 belongs to both the root band's and the sacral
band's bin range as derived by bandEnergy, so the bin ranges are not
pairwise disjoint. -/
theorem bandBins_share_boundary_bin :
    (24 : ℤ) ∈ bandBins 32 128 44100 8192 4096 ∧
    (24 : ℤ) ∈ bandBins 128 256 44100 8192 4096 := by
  have h32 : frequencyToBin 32 44100 8192 = 6 := by
    norm_num [frequencyToBin, jsRound]
  have h128 : frequencyToBin 128 44100 8192 = 24 := by
    norm_num [frequencyToBin, jsRound]
  have h256 : frequencyToBin 256 44100 8192 = 48 := by
    norm_num [frequencyToBin, jsRound]
  constructor
  · simp only [bandBins, h32, h128]
    norm_num
    exact ⟨18, by decide, by decide⟩
  · simp only [bandBins, h128, h256]
    norm_num
    exact ⟨0, by decide, by decide⟩

/-- C1 witness: the disjointness theorem applied at root/sacral and 100 Hz,
and the ≥ 1024 Hz rule applied at 2048 Hz. -/
theorem frequencyToCentre_at_most_one_band_witness :
    ¬((bandLow EnergyCentre.root ≤ (100 : ℚ) ∧ (100 : ℚ) < bandHigh EnergyCentre.root) ∧
        (bandLow EnergyCentre.sacral ≤ (100 : ℚ) ∧
          (100 : ℚ) < bandHigh EnergyCentre.sacral)) ∧
    frequencyToCentre 2048 = some EnergyCentre.crown :=
  ⟨frequencyToCentre_at_most_one_band.1 EnergyCentre.root EnergyCentre.sacral
      (by decide) 100,
    frequencyToCentre_at_most_one_band.2 2048 (by norm_num)⟩

/-- C4 (amended): computeCompatibilityScore always returns an integer in
[0, 100], and raising every instrument band level uniformly (which does not
decrease the average headroom) never decreases the score. (An arbitrary
band-level change preserving the average headroom CAN decrease the score
through the spectral-richness component — see the counterexample.) -/
theorem computeCompatibilityScore_range_and_monotone (inp : ScoringInput) (d : ℚ)
    (hd : 0 ≤ d) :
    0 ≤ computeCompatibilityScore inp ∧ computeCompatibilityScore inp ≤ 100 ∧
    computeCompatibilityScore inp ≤ computeCompatibilityScore (raiseAllBands inp d) := by
  refine ⟨le_max_left _ _, max_le (by norm_num) (min_le_left _ _), ?_⟩
  have hnoise : (raiseAllBands inp d).noiseFloorBands = inp.noiseFloorBands := rfl
  have hsum : headroomSum inp ≤ headroomSum (raiseAllBands inp d) := by
    simp only [headroomSum, CENTRE_ORDER, List.map_cons, List.map_nil, List.sum_cons,
      List.sum_nil, raiseAllBands, hnoise]
    gcongr <;> linarith
  have hres : resonanceScore inp ≤ resonanceScore (raiseAllBands inp d) := by
    unfold resonanceScore avgHeadroom
    gcongr
  have hact : activatedCentres inp ≤ activatedCentres (raiseAllBands inp d) := by
    unfold activatedCentres
    refine List.countP_mono_left ?_
    intro b _ hb
    simp only [decide_eq_true_eq] at hb ⊢
    simp only [raiseAllBands, hnoise]
    linarith
  have hrich : richnessScore inp ≤ richnessScore (raiseAllBands inp d) := by
    unfold richnessScore
    gcongr
  have hclar : clarityScore (raiseAllBands inp d) = clarityScore inp := rfl
  unfold computeCompatibilityScore
  have hround : jsRound (resonanceScore inp + richnessScore inp + clarityScore inp) ≤
      jsRound (resonanceScore (raiseAllBands inp d) + richnessScore (raiseAllBands inp d) +
        clarityScore (raiseAllBands inp d)) := by
    unfold jsRound
    exact Int.floor_mono (by rw [hclar]; linarith)
  exact max_le_max le_rfl (min_le_min le_rfl hround)

/-- C4 counterexample: two scoring inputs with identical noise floor,
confidence and harmonics and the SAME average headroom (7 dB), where the
score drops from 44 to 14 because the headroom is concentrated in one band:
a change of band levels that does not decrease the average headroom can
decrease the score. -/
theorem computeCompatibilityScore_not_headroom_monotone :
    avgHeadroom scoreInputB = avgHeadroom scoreInputA ∧
    scoreInputB.noiseFloorBands = scoreInputA.noiseFloorBands ∧
    scoreInputB.overtoneConfidence = scoreInputA.overtoneConfidence ∧
    scoreInputB.harmonics = scoreInputA.harmonics ∧
    computeCompatibilityScore scoreInputB < computeCompatibilityScore scoreInputA := by
  refine ⟨?_, rfl, rfl, rfl, ?_⟩
  · norm_num [avgHeadroom, headroomSum, noiseLevelAt, CENTRE_ORDER, scoreInputA,
      scoreInputB, DEFAULT_NOISE_DB]
  · norm_num [computeCompatibilityScore, resonanceScore, richnessScore, clarityScore,
      avgHeadroom, headroomSum, activatedCentres, noiseLevelAt, CENTRE_ORDER,
      scoreInputA, scoreInputB, DEFAULT_NOISE_DB, jsRound, List.countP_cons]

/-- C4 witness: the range/monotonicity theorem applied to the concrete
input scoreInputA with uniform raise 1 dB. -/
theorem computeCompatibilityScore_range_and_monotone_witness :
    (0 : ℚ) ≤ 1 ∧
    (0 ≤ computeCompatibilityScore scoreInputA ∧
      computeCompatibilityScore scoreInputA ≤ 100 ∧
      computeCompatibilityScore scoreInputA ≤
        computeCompatibilityScore (raiseAllBands scoreInputA 1)) :=
  ⟨by norm_num, computeCompatibilityScore_range_and_monotone scoreInputA 1 (by norm_num)⟩

/-- Elements of suffixSums of a list of non-negatives are non-negative. -/
theorem suffixSums_nonneg {l : List ℚ} (hl : ∀ y ∈ l, 0 ≤ y) :
    ∀ x ∈ suffixSums l, 0 ≤ x := by
  induction l with
  | nil => intro x hx; simp [suffixSums] at hx
  | cons a t ih =>
    intro x hx
    have ht : ∀ y ∈ t, 0 ≤ y := fun y hy => hl y (List.mem_cons_of_mem a hy)
    rcases List.mem_cons.mp hx with rfl | hx2
    · have ha : 0 ≤ a := hl a (List.mem_cons_self a t)
      rcases ht2 : suffixSums t with _ | ⟨b, r⟩
      · simpa [suffixSums, ht2] using ha
      · have hb : 0 ≤ b := ih ht b (by rw [ht2]; exact List.mem_cons_self b r)
        simp only [suffixSums, ht2, List.headD_cons]
        linarith
    · exact ih ht x hx2

/-- suffixSums of a list of non-negatives is non-increasing. -/
theorem suffixSums_chain {l : List ℚ} (hl : ∀ y ∈ l, 0 ≤ y) :
    List.Chain' (fun a b => b ≤ a) (suffixSums l) := by
  induction l with
  | nil => simp [suffixSums]
  | cons a t ih =>
    have ht : ∀ y ∈ t, 0 ≤ y := fun y hy => hl y (List.mem_cons_of_mem a hy)
    have ha : 0 ≤ a := hl a (List.mem_cons_self a t)
    simp only [suffixSums]
    rcases ht2 : suffixSums t with _ | ⟨b, r⟩
    · simp
    · refine List.Chain'.cons ?_ (by rw [← ht2]; exact ih ht)
      simp only [ht2, List.headD_cons]
      linarith

/-- suffixSums preserves length. -/
theorem suffixSums_length (l : List ℚ) : (suffixSums l).length = l.length := by
  induction l with
  | nil => rfl
  | cons a t ih => simp [suffixSums, ih]

/-- In a non-increasing list, every element is at most the head. -/
theorem mem_le_headD {l : List ℚ} (h : List.Chain' (fun a b => b ≤ a) l) :
    ∀ x ∈ l, x ≤ l.headD 0 := by
  cases l with
  | nil => intro x hx; simp at hx
  | cons a t =>
    intro x hx
    rcases List.mem_cons.mp hx with rfl | hx2
    · simp
    · have hpw := List.chain'_iff_pairwise.mp h
      simpa using List.rel_of_pairwise_cons hpw hx2

/-- Squared samples are non-negative. -/
theorem squaredSamples_nonneg (ir : List ℚ) : ∀ y ∈ squaredSamples ir, 0 ≤ y := by
  intro y hy
  obtain ⟨x, _, rfl⟩ := List.mem_map.mp hy
  exact mul_self_nonneg x

/-- C6: for a non-empty impulse response, the backward-integrated energy
curve is non-increasing; when the total energy is positive the dB decay
curve starts at 0 and is everywhere ≤ 0; when the total energy is ≤ 0 the
unconverted energy curve (which is then all-zero) is returned unchanged. -/
theorem schroederIntegration_decay (ir : List ℚ) (hne : ir ≠ []) :
    List.Chain' (fun a b => b ≤ a) (energyCurveOf ir) ∧
    (0 < totalEnergy ir →
      (schroederIntegration ir).head? = some 0 ∧
      ∀ x ∈ schroederIntegration ir, x ≤ 0) ∧
    (totalEnergy ir ≤ 0 →
      schroederIntegration ir = (energyCurveOf ir).map (fun e : ℚ => (e : ℝ)) ∧
      ∀ e ∈ energyCurveOf ir, e = 0) := by
  have hsqn := squaredSamples_nonneg ir
  have hchain : List.Chain' (fun a b => b ≤ a) (energyCurveOf ir) :=
    suffixSums_chain hsqn
  have hnonneg : ∀ x ∈ energyCurveOf ir, 0 ≤ x := suffixSums_nonneg hsqn
  have hmemle : ∀ x ∈ energyCurveOf ir, x ≤ totalEnergy ir := mem_le_headD hchain
  have hcurve_ne : energyCurveOf ir ≠ [] := by
    intro h
    apply hne
    have := suffixSums_length (squaredSamples ir)
    rw [energyCurveOf] at h
    rw [h] at this
    simpa [squaredSamples] using (List.length_eq_zero.mp this.symm)
  refine ⟨hchain, ?_, ?_⟩
  · intro hpos
    rw [schroederIntegration, if_neg (not_le.mpr hpos)]
    constructor
    · rw [List.head?_map]
      obtain ⟨a, t, heq⟩ := List.exists_cons_of_ne_nil hcurve_ne
      have ha : a = totalEnergy ir := by
        rw [totalEnergy, heq, List.headD_cons]
      rw [heq, ha, List.head?_cons, Option.map_some']
      have : (totalEnergy ir : ℝ) / (totalEnergy ir : ℝ) = 1 := by
        apply div_self
        exact_mod_cast hpos.ne.symm
      rw [this, Real.logb_one, mul_zero]
    · intro x hx
      obtain ⟨e, he, rfl⟩ := List.mem_map.mp hx
      have h1 : (0 : ℝ) ≤ (e : ℝ) / (totalEnergy ir : ℝ) := by
        apply div_nonneg
        · exact_mod_cast hnonneg e he
        · exact_mod_cast hpos.le
      have h2 : (e : ℝ) / (totalEnergy ir : ℝ) ≤ 1 := by
        rw [div_le_one (by exact_mod_cast hpos)]
        exact_mod_cast hmemle e he
      have := Real.logb_nonpos (by norm_num : (1 : ℝ) < 10) h1 h2
      linarith
  · intro hle
    rw [schroederIntegration, if_pos hle]
    exact ⟨rfl, fun e he => le_antisymm ((hmemle e he).trans hle) (hnonneg e he)⟩

/-- C6 witness: the decay theorem applied to the one-sample impulse [1]
(total energy 1 > 0). -/
theorem schroederIntegration_decay_witness :
    ([1] : List ℚ) ≠ [] ∧ 0 < totalEnergy [1] ∧
    ((schroederIntegration [1]).head? = some 0 ∧ ∀ x ∈ schroederIntegration [1], x ≤ 0) := by
  have h1 : ([1] : List ℚ) ≠ [] := by simp
  have h2 : 0 < totalEnergy [1] := by
    norm_num [totalEnergy, energyCurveOf, suffixSums, squaredSamples]
  exact ⟨h1, h2, (schroederIntegration_decay [1] h1).2.1 h2⟩

/-- suffixSums of a block of zeros is all zeros. -/
theorem suffixSums_replicate_zero (k : ℕ) :
    suffixSums (List.replicate k 0) = List.replicate k 0 := by
  induction k with
  | zero => rfl
  | succ n ih =>
    simp only [List.replicate_succ, suffixSums, ih]
    cases n <;> simp [List.replicate_succ]

/-- Appending zeros to a list extends its suffix sums with zeros. -/
theorem suffixSums_append_zeros (l : List ℚ) (k : ℕ) :
    suffixSums (l ++ List.replicate k 0) = suffixSums l ++ List.replicate k 0 := by
  induction l with
  | nil => simpa using suffixSums_replicate_zero k
  | cons a t ih =>
    have hhead : (suffixSums (t ++ List.replicate k 0)).headD 0 =
        (suffixSums t).headD 0 := by
      rw [ih]
      cases ht : suffixSums t with
      | nil =>
        simp only [List.nil_append, List.headD_nil]
        cases k with
        | zero => simp
        | succ n => simp [List.replicate_succ]
      | cons b r => simp
    rw [List.cons_append, suffixSums, suffixSums, hhead, ih, List.cons_append]

/-- Appending zero samples extends the energy curve with zeros. -/
theorem energyCurveOf_append_zeros (ir : List ℚ) (k : ℕ) :
    energyCurveOf (ir ++ List.replicate k 0) = energyCurveOf ir ++ List.replicate k 0 := by
  rw [energyCurveOf, squaredSamples, List.map_append, List.map_replicate]
  simp only [mul_zero]
  exact suffixSums_append_zeros _ k

/-- Appending zero samples keeps the total energy, provided the impulse
response is non-empty. -/
theorem totalEnergy_append_zeros (ir : List ℚ) (k : ℕ) (hne : ir ≠ []) :
    totalEnergy (ir ++ List.replicate k 0) = totalEnergy ir := by
  rw [totalEnergy, energyCurveOf_append_zeros]
  have hcurve_ne : energyCurveOf ir ≠ [] := by
    intro h
    have := suffixSums_length (squaredSamples ir)
    rw [energyCurveOf] at h
    rw [h] at this
    exact hne (by simpa [squaredSamples] using (List.length_eq_zero.mp this.symm))
  obtain ⟨a, t, heq⟩ := List.exists_cons_of_ne_nil hcurve_ne
  rw [heq]
  simp [totalEnergy, heq]

/-- firstCrossing is some whenever some element crosses the threshold. -/
theorem firstCrossing_isSome {thr : ℝ} {l : List ℝ} (h : ∃ x ∈ l, x ≤ thr) :
    (firstCrossing thr l).isSome = true := by
  induction l with
  | nil => simp at h
  | cons a t ih =>
    rw [firstCrossing]
    by_cases ha : a ≤ thr
    · simp [ha]
    · rcases h with ⟨x, hx, hxle⟩
      rcases List.mem_cons.mp hx with rfl | hx2
      · exact absurd hxle ha
      · simp only [ha, if_false]
        have := ih ⟨x, hx2, hxle⟩
        rcases Option.isSome_iff_exists.mp this with ⟨n, hn⟩
        simp [hn]

/-- firstCrossing ignores anything appended after a crossing was found. -/
theorem firstCrossing_append {thr : ℝ} {l : List ℝ} (l2 : List ℝ)
    (h : (firstCrossing thr l).isSome = true) :
    firstCrossing thr (l ++ l2) = firstCrossing thr l := by
  induction l with
  | nil => rw [firstCrossing] at h; simp at h
  | cons a t ih =>
    rw [List.cons_append, firstCrossing, firstCrossing]
    by_cases ha : a ≤ thr
    · rw [if_pos ha, if_pos ha]
    · rw [if_neg ha, if_neg ha]
      rw [firstCrossing, if_neg ha] at h
      have ht : (firstCrossing thr t).isSome = true := by
        rcases hopt : firstCrossing thr t with _ | m
        · rw [hopt] at h; simp at h
        · simp
      rw [ih ht]

/-- C7: appending zero samples after an impulse response whose Schroeder
decay curve reaches −25 dB does not change the computed RT60. -/
theorem computeRT60_pad_invariant (ir : List ℚ) (k : ℕ) (sampleRate : ℚ)
    (hreach : ∃ x ∈ schroederIntegration ir, x ≤ -25) :
    computeRT60 (ir ++ List.replicate k 0) sampleRate = computeRT60 ir sampleRate := by
  have hsqn := squaredSamples_nonneg ir
  have hnonneg : ∀ x ∈ energyCurveOf ir, 0 ≤ x := suffixSums_nonneg hsqn
  have hne : ir ≠ [] := by
    rintro rfl
    rcases hreach with ⟨x, hx, _⟩
    simp [schroederIntegration, energyCurveOf, squaredSamples, suffixSums,
      totalEnergy] at hx
  have hpos : 0 < totalEnergy ir := by
    by_contra hnot
    push_neg at hnot
    rcases hreach with ⟨x, hx, hxle⟩
    rw [schroederIntegration, if_pos hnot] at hx
    obtain ⟨e, he, rfl⟩ := List.mem_map.mp hx
    have : (0 : ℝ) ≤ (e : ℝ) := by exact_mod_cast hnonneg e he
    linarith
  have htot := totalEnergy_append_zeros ir k hne
  have hcurve : schroederIntegration (ir ++ List.replicate k 0) =
      schroederIntegration ir ++
        List.replicate k (10 * Real.logb 10 ((0 : ℝ) / (totalEnergy ir : ℝ))) := by
    rw [schroederIntegration, schroederIntegration, htot, if_neg (not_le.mpr hpos),
      if_neg (not_le.mpr hpos), energyCurveOf_append_zeros, List.map_append,
      List.map_replicate]
    norm_num
  have h25 : (firstCrossing (-25) (schroederIntegration ir)).isSome = true :=
    firstCrossing_isSome hreach
  have h5 : (firstCrossing (-5) (schroederIntegration ir)).isSome = true := by
    rcases hreach with ⟨x, hx, hxle⟩
    exact firstCrossing_isSome ⟨x, hx, by linarith⟩
  have h10 : (firstCrossing (-10) (schroederIntegration ir)).isSome = true := by
    rcases hreach with ⟨x, hx, hxle⟩
    exact firstCrossing_isSome ⟨x, hx, by linarith⟩
  rw [computeRT60, computeRT60, hcurve]
  rw [estimateRT60, estimateRT60, rt60Fallback, rt60Fallback,
    firstCrossing_append _ h25, firstCrossing_append _ h5, firstCrossing_append _ h10]

/-- The decay curve of padIr = [1000, 1] written out: total energy 10^6+1,
second entry 10·log10(1/(10^6+1)) which is below −25 dB. -/
theorem schroederIntegration_padIr :
    schroederIntegration padIr =
      [10 * Real.logb 10 ((1000001 : ℝ) / 1000001),
        10 * Real.logb 10 ((1 : ℝ) / 1000001)] := by
  have hcurve : energyCurveOf padIr = [1000001, 1] := by
    norm_num [energyCurveOf, squaredSamples, suffixSums, padIr]
  have htot : totalEnergy padIr = 1000001 := by
    rw [totalEnergy, hcurve]
    norm_num
  rw [schroederIntegration, if_neg (by rw [htot]; norm_num), hcurve, htot]
  norm_num

/-- The second entry of padIr's decay curve lies below −25 dB. -/
theorem padIr_crossing : 10 * Real.logb 10 ((1 : ℝ) / 1000001) ≤ -25 := by
  have h1 : Real.logb 10 ((1 : ℝ) / 1000001) ≤ -(5 / 2) := by
    rw [Real.logb_le_iff_le_rpow (by norm_num) (by norm_num)]
    have hpow : (10 : ℝ) ^ ((5 : ℝ) / 2) ≤ (10 : ℝ) ^ ((3 : ℝ)) := by
      rw [Real.rpow_le_rpow_left_iff (by norm_num)]
      norm_num
    have h3 : (10 : ℝ) ^ ((3 : ℝ)) = 1000 := by
      rw [show ((3 : ℝ)) = ((3 : ℕ) : ℝ) by norm_num, Real.rpow_natCast]
      norm_num
    have hpos : (0 : ℝ) < (10 : ℝ) ^ ((5 : ℝ) / 2) :=
      Real.rpow_pos_of_pos (by norm_num) _
    rw [show (-(5 / 2) : ℝ) = -((5 : ℝ) / 2) by norm_num,
      Real.rpow_neg (by norm_num : (0 : ℝ) ≤ 10)]
    rw [h3] at hpow
    have : (1 : ℝ) / 1000 ≤ ((10 : ℝ) ^ ((5 : ℝ) / 2))⁻¹ := by
      rw [le_inv_comm₀ (by norm_num) hpos]
      calc (10 : ℝ) ^ ((5 : ℝ) / 2) ≤ 1000 := hpow
        _ = ((1 / 1000 : ℝ))⁻¹ := by norm_num
    linarith [this]
  linarith

/-- C7 witness: the padding-invariance theorem applied to padIr with 3
appended zero samples at sample rate 10. -/
theorem computeRT60_pad_invariant_witness :
    (∃ x ∈ schroederIntegration padIr, x ≤ -25) ∧
    computeRT60 (padIr ++ List.replicate 3 0) 10 = computeRT60 padIr 10 := by
  have hreach : ∃ x ∈ schroederIntegration padIr, x ≤ -25 := by
    refine ⟨10 * Real.logb 10 ((1 : ℝ) / 1000001), ?_, padIr_crossing⟩
    rw [schroederIntegration_padIr]
    exact List.mem_cons_of_mem _ (List.mem_cons_self _ _)
  exact ⟨hreach, computeRT60_pad_invariant padIr 3 10 hreach⟩

/-- The linear threshold for thresholdDB = 10 is exactly 10. -/
theorem thresholdLinear_ten : thresholdLinear 10 = ((10 : ℚ) : ℝ) := by
  rw [thresholdLinear, show (((10 : ℚ) : ℝ)) / 10 = 1 by norm_num, Real.rpow_one]
  norm_num

/-- detectStep agrees with its computable twin once the linear threshold is
known to be a rational. -/
theorem detectStep_eq_stepQ {tq : ℚ} (buf : List ℚ) (sampleRate : ℚ)
    (cfg : TransientDetectorConfig) (avgW : ℕ) (st : DetectState) (w : ℕ)
    (h : thresholdLinear cfg.thresholdDB = ((tq : ℚ) : ℝ)) :
    detectStep buf sampleRate cfg avgW st w = detectStepQ tq buf sampleRate cfg avgW st w := by
  simp only [detectStep, detectStepQ, h, Rat.cast_lt]

/-- detectTransients agrees with its computable twin once the linear
threshold is known to be a rational. -/
theorem detectTransients_eq_Q {tq : ℚ} (buf : List ℚ) (sampleRate : ℚ)
    (cfg : TransientDetectorConfig)
    (h : thresholdLinear cfg.thresholdDB = ((tq : ℚ) : ℝ)) :
    detectTransients buf sampleRate cfg = detectTransientsQ tq buf sampleRate cfg := by
  rw [detectTransients, detectTransientsQ]
  have hfold : ∀ (l : List ℕ) (st : DetectState),
      l.foldl (detectStep buf sampleRate cfg (avgWindowSize buf cfg.windowSize)) st =
      l.foldl (detectStepQ tq buf sampleRate cfg (avgWindowSize buf cfg.windowSize)) st := by
    intro l
    induction l with
    | nil => intro st; rfl
    | cons a t ih =>
      intro st
      rw [List.foldl_cons, List.foldl_cons, detectStep_eq_stepQ buf sampleRate cfg _ st a h,
        ih]
  rw [hfold]

/-- The invariant carried through the detectTransients loop for the
minimum-spacing guarantee: recorded events are chained with gaps of at
least minIntervalSamples, and the gate equals the last recorded event's
sample index (when one exists). -/
def SpacingInv (cfg : TransientDetectorConfig) (sampleRate : ℚ) (st : DetectState) :
    Prop :=
  List.Chain'
    (fun a b => (a.sampleIndex : ℤ) + minIntervalSamples cfg sampleRate ≤ (b.sampleIndex : ℤ))
    st.events ∧
  ∀ p, st.events.getLast? = some p → (p.sampleIndex : ℤ) ≤ st.lastDetected

/-- detectStep preserves the spacing invariant. -/
theorem detectStep_spacingInv (buf : List ℚ) (sampleRate : ℚ)
    (cfg : TransientDetectorConfig) (avgW : ℕ) (st : DetectState) (w : ℕ)
    (hinv : SpacingInv cfg sampleRate st) :
    SpacingInv cfg sampleRate (detectStep buf sampleRate cfg avgW st w) := by
  rw [detectStep]
  split_ifs with hfire hquiet
  · exact hinv
  · obtain ⟨hchain, hlast⟩ := hinv
    constructor
    · rw [List.chain'_append]
      refine ⟨hchain, List.chain'_singleton _, ?_⟩
      intro x hx y hy
      simp only [List.head?_cons, Option.mem_def, Option.some.injEq] at hy
      subst hy
      have hxle := hlast x (Option.mem_def.mp hx)
      have := hfire.2
      simp only
      omega
    · intro p hp
      rw [List.getLast?_concat] at hp
      simp only [Option.some.injEq] at hp
      subst hp
      simp
  · exact hinv

/-- C5 (amended): consecutive events recorded by detectTransients are
always at least minIntervalSamples = floor(minIntervalSeconds · sampleRate)
SAMPLES apart (in particular they are chronologically ordered whenever that
floor is positive). When minIntervalSeconds · sampleRate is not an integer
the flooring makes the guaranteed gap slightly less than
minIntervalSeconds in seconds — see the counterexample. -/
theorem detectTransients_min_spacing (buf : List ℚ) (sampleRate : ℚ)
    (cfg : TransientDetectorConfig) :
    List.Chain'
      (fun a b => (a.sampleIndex : ℤ) + minIntervalSamples cfg sampleRate ≤ (b.sampleIndex : ℤ))
      (detectTransients buf sampleRate cfg) := by
  rw [detectTransients]
  have hfold : ∀ (l : List ℕ) (st : DetectState), SpacingInv cfg sampleRate st →
      SpacingInv cfg sampleRate
        (l.foldl (detectStep buf sampleRate cfg (avgWindowSize buf cfg.windowSize)) st) := by
    intro l
    induction l with
    | nil => intro st h; exact h
    | cons a t ih =>
      intro st h
      rw [List.foldl_cons]
      exact ih _ (detectStep_spacingInv buf sampleRate cfg _ st a h)
  exact (hfold _ ⟨-(minIntervalSamples cfg sampleRate), []⟩
    ⟨List.chain'_nil, by intro p hp; simp at hp⟩).1

/-- The invariant for C10: every recorded event starts at a window boundary
at or after window avgW. -/
def AlignInv (ws avgW : ℕ) (st : DetectState) : Prop :=
  ∀ e ∈ st.events, ws ∣ e.sampleIndex ∧ avgW * ws ≤ e.sampleIndex

/-- detectStep preserves the alignment invariant for windows ≥ avgW. -/
theorem detectStep_alignInv (buf : List ℚ) (sampleRate : ℚ)
    (cfg : TransientDetectorConfig) (avgW : ℕ) (st : DetectState) (w : ℕ)
    (hw : avgW ≤ w) (hinv : AlignInv cfg.windowSize avgW st) :
    AlignInv cfg.windowSize avgW (detectStep buf sampleRate cfg avgW st w) := by
  rw [detectStep]
  split_ifs with hfire hquiet
  · exact hinv
  · intro e he
    simp only at he
    rcases List.mem_append.mp he with he1 | he2
    · exact hinv e he1
    · simp only [List.mem_singleton] at he2
      subst he2
      exact ⟨Dvd.intro_left w rfl, Nat.mul_le_mul_right _ hw⟩
  · exact hinv

/-- C10: every event reported by detectTransients starts at a multiple of
windowSize, lies at or after window avgWindowSize = min(20, numWindows);
at the default window size 512, once the recording spans at least 20
windows no event can start before sample 10240 (≈ 0.23 s at 44.1 kHz). -/
theorem detectTransients_event_alignment (buf : List ℚ) (sampleRate : ℚ)
    (cfg : TransientDetectorConfig) (e : TransientEvent)
    (he : e ∈ detectTransients buf sampleRate cfg) :
    cfg.windowSize ∣ e.sampleIndex ∧
    avgWindowSize buf cfg.windowSize * cfg.windowSize ≤ e.sampleIndex ∧
    (cfg.windowSize = 512 → 20 ≤ numWindows buf cfg.windowSize →
      10240 ≤ e.sampleIndex) := by
  rw [detectTransients] at he
  have hfold : ∀ (l : List ℕ) (st : DetectState),
      (∀ w ∈ l, avgWindowSize buf cfg.windowSize ≤ w) →
      AlignInv cfg.windowSize (avgWindowSize buf cfg.windowSize) st →
      AlignInv cfg.windowSize (avgWindowSize buf cfg.windowSize)
        (l.foldl (detectStep buf sampleRate cfg (avgWindowSize buf cfg.windowSize)) st) := by
    intro l
    induction l with
    | nil => intro st _ h; exact h
    | cons a t ih =>
      intro st hmem h
      rw [List.foldl_cons]
      exact ih _ (fun w hw => hmem w (List.mem_cons_of_mem a hw))
        (detectStep_alignInv buf sampleRate cfg _ st a (hmem a (List.mem_cons_self a t)) h)
  have hrange : ∀ w ∈ List.range' (avgWindowSize buf cfg.windowSize)
      (numWindows buf cfg.windowSize - avgWindowSize buf cfg.windowSize),
      avgWindowSize buf cfg.windowSize ≤ w := by
    intro w hw
    exact (List.mem_range'_1.mp hw).1
  have hinv := hfold _ ⟨-(minIntervalSamples cfg sampleRate), []⟩ hrange
    (by intro x hx; simp at hx)
  obtain ⟨hdvd, hge⟩ := hinv e he
  refine ⟨hdvd, hge, ?_⟩
  intro h512 h20
  have haw : avgWindowSize buf cfg.windowSize = 20 := by
    rw [avgWindowSize]
    omega
  rw [haw, h512] at hge
  omega

/-- C8: a window that passes the energy-ratio and interval-gate checks but
whose peak amplitude is below minAmplitude leaves the loop state entirely
unchanged: the event is not recorded AND the interval gate keeps pointing
at the last actually-recorded event. -/
theorem detectStep_amplitude_gate (buf : List ℚ) (sampleRate : ℚ)
    (cfg : TransientDetectorConfig) (avgW : ℕ) (st : DetectState) (w : ℕ)
    (hfire : thresholdLinear cfg.thresholdDB <
      ((energyQuotAt buf cfg.windowSize avgW w : ℚ) : ℝ))
    (hgate : minIntervalSamples cfg sampleRate ≤
      ((w * cfg.windowSize : ℕ) : ℤ) - st.lastDetected)
    (hquiet : windowPeak buf cfg.windowSize w < cfg.minAmplitude) :
    detectStep buf sampleRate cfg avgW st w = st := by
  rw [detectStep, if_pos ⟨hfire, hgate⟩, if_pos hquiet]

/-- windowEnergy with windowSize 1 is the squared sample at the window. -/
theorem windowEnergy_one (buf : List ℚ) (w : ℕ) :
    windowEnergy buf 1 w = buf.getD w 0 * buf.getD w 0 := by
  simp [windowEnergy, show List.range 1 = [0] from rfl]

/-- windowPeak with windowSize 1 is the absolute sample at the window. -/
theorem windowPeak_one (buf : List ℚ) (w : ℕ) :
    windowPeak buf 1 w = max 0 |buf.getD w 0| := by
  simp [windowPeak, show List.range 1 = [0] from rfl]

/-- Evaluation of the concrete transient run: two events fire, at windows
20 and 22, only 2 samples apart (= the floored minIntervalSamples). -/
theorem transRun_eval : detectTransientsQ 10 transBuf 10 transCfg = [transEv1, transEv2] := by
  have hE0 : windowEnergy transBuf 1 0 = 1/100 := by
    rw [windowEnergy_one, show transBuf.getD 0 0 = (1:ℚ)/10 from rfl]
    norm_num
  have hE1 : windowEnergy transBuf 1 1 = 1/100 := by
    rw [windowEnergy_one, show transBuf.getD 1 0 = (1:ℚ)/10 from rfl]
    norm_num
  have hE2 : windowEnergy transBuf 1 2 = 1/100 := by
    rw [windowEnergy_one, show transBuf.getD 2 0 = (1:ℚ)/10 from rfl]
    norm_num
  have hE3 : windowEnergy transBuf 1 3 = 1/100 := by
    rw [windowEnergy_one, show transBuf.getD 3 0 = (1:ℚ)/10 from rfl]
    norm_num
  have hE4 : windowEnergy transBuf 1 4 = 1/100 := by
    rw [windowEnergy_one, show transBuf.getD 4 0 = (1:ℚ)/10 from rfl]
    norm_num
  have hE5 : windowEnergy transBuf 1 5 = 1/100 := by
    rw [windowEnergy_one, show transBuf.getD 5 0 = (1:ℚ)/10 from rfl]
    norm_num
  have hE6 : windowEnergy transBuf 1 6 = 1/100 := by
    rw [windowEnergy_one, show transBuf.getD 6 0 = (1:ℚ)/10 from rfl]
    norm_num
  have hE7 : windowEnergy transBuf 1 7 = 1/100 := by
    rw [windowEnergy_one, show transBuf.getD 7 0 = (1:ℚ)/10 from rfl]
    norm_num
  have hE8 : windowEnergy transBuf 1 8 = 1/100 := by
    rw [windowEnergy_one, show transBuf.getD 8 0 = (1:ℚ)/10 from rfl]
    norm_num
  have hE9 : windowEnergy transBuf 1 9 = 1/100 := by
    rw [windowEnergy_one, show transBuf.getD 9 0 = (1:ℚ)/10 from rfl]
    norm_num
  have hE10 : windowEnergy transBuf 1 10 = 1/100 := by
    rw [windowEnergy_one, show transBuf.getD 10 0 = (1:ℚ)/10 from rfl]
    norm_num
  have hE11 : windowEnergy transBuf 1 11 = 1/100 := by
    rw [windowEnergy_one, show transBuf.getD 11 0 = (1:ℚ)/10 from rfl]
    norm_num
  have hE12 : windowEnergy transBuf 1 12 = 1/100 := by
    rw [windowEnergy_one, show transBuf.getD 12 0 = (1:ℚ)/10 from rfl]
    norm_num
  have hE13 : windowEnergy transBuf 1 13 = 1/100 := by
    rw [windowEnergy_one, show transBuf.getD 13 0 = (1:ℚ)/10 from rfl]
    norm_num
  have hE14 : windowEnergy transBuf 1 14 = 1/100 := by
    rw [windowEnergy_one, show transBuf.getD 14 0 = (1:ℚ)/10 from rfl]
    norm_num
  have hE15 : windowEnergy transBuf 1 15 = 1/100 := by
    rw [windowEnergy_one, show transBuf.getD 15 0 = (1:ℚ)/10 from rfl]
    norm_num
  have hE16 : windowEnergy transBuf 1 16 = 1/100 := by
    rw [windowEnergy_one, show transBuf.getD 16 0 = (1:ℚ)/10 from rfl]
    norm_num
  have hE17 : windowEnergy transBuf 1 17 = 1/100 := by
    rw [windowEnergy_one, show transBuf.getD 17 0 = (1:ℚ)/10 from rfl]
    norm_num
  have hE18 : windowEnergy transBuf 1 18 = 1/100 := by
    rw [windowEnergy_one, show transBuf.getD 18 0 = (1:ℚ)/10 from rfl]
    norm_num
  have hE19 : windowEnergy transBuf 1 19 = 1/100 := by
    rw [windowEnergy_one, show transBuf.getD 19 0 = (1:ℚ)/10 from rfl]
    norm_num
  have hE20 : windowEnergy transBuf 1 20 = 1 := by
    rw [windowEnergy_one, show transBuf.getD 20 0 = (1:ℚ) from rfl]
    norm_num
  have hE21 : windowEnergy transBuf 1 21 = 1/100 := by
    rw [windowEnergy_one, show transBuf.getD 21 0 = (1:ℚ)/10 from rfl]
    norm_num
  have hE22 : windowEnergy transBuf 1 22 = 1 := by
    rw [windowEnergy_one, show transBuf.getD 22 0 = (1:ℚ) from rfl]
    norm_num
  have hE23 : windowEnergy transBuf 1 23 = 1/100 := by
    rw [windowEnergy_one, show transBuf.getD 23 0 = (1:ℚ)/10 from rfl]
    norm_num
  have hr20 : List.range 20 = [0, 1, 2, 3, 4, 5, 6, 7, 8, 9, 10, 11, 12, 13, 14, 15, 16, 17, 18, 19] := rfl
  have hB20 : bgWindowEnergy transBuf 1 20 20 = 1/100 := by
    rw [bgWindowEnergy, hr20]
    norm_num [hE0, hE1, hE2, hE3, hE4, hE5, hE6, hE7, hE8, hE9, hE10, hE11, hE12, hE13, hE14, hE15, hE16, hE17, hE18, hE19]
  have hB21 : bgWindowEnergy transBuf 1 20 21 = 119/2000 := by
    rw [bgWindowEnergy, hr20]
    norm_num [hE1, hE2, hE3, hE4, hE5, hE6, hE7, hE8, hE9, hE10, hE11, hE12, hE13, hE14, hE15, hE16, hE17, hE18, hE19, hE20]
  have hB22 : bgWindowEnergy transBuf 1 20 22 = 119/2000 := by
    rw [bgWindowEnergy, hr20]
    norm_num [hE2, hE3, hE4, hE5, hE6, hE7, hE8, hE9, hE10, hE11, hE12, hE13, hE14, hE15, hE16, hE17, hE18, hE19, hE20, hE21]
  have hB23 : bgWindowEnergy transBuf 1 20 23 = 109/1000 := by
    rw [bgWindowEnergy, hr20]
    norm_num [hE3, hE4, hE5, hE6, hE7, hE8, hE9, hE10, hE11, hE12, hE13, hE14, hE15, hE16, hE17, hE18, hE19, hE20, hE21, hE22]
  have hQ20 : energyQuotAt transBuf 1 20 20 = 100 := by
    rw [energyQuotAt, hB20, if_pos (by norm_num), hE20]
    norm_num
  have hQ21 : energyQuotAt transBuf 1 20 21 = 20/119 := by
    rw [energyQuotAt, hB21, if_pos (by norm_num), hE21]
    norm_num
  have hQ22 : energyQuotAt transBuf 1 20 22 = 2000/119 := by
    rw [energyQuotAt, hB22, if_pos (by norm_num), hE22]
    norm_num
  have hQ23 : energyQuotAt transBuf 1 20 23 = 10/109 := by
    rw [energyQuotAt, hB23, if_pos (by norm_num), hE23]
    norm_num
  have hmis : minIntervalSamples transCfg 10 = 2 := by
    norm_num [minIntervalSamples, show transCfg.minIntervalSeconds = (1:ℚ)/4 from rfl]
  have hP20 : windowPeak transBuf 1 20 = 1 := by
    rw [windowPeak_one, show transBuf.getD 20 0 = (1:ℚ) from rfl]
    norm_num
  have hP22 : windowPeak transBuf 1 22 = 1 := by
    rw [windowPeak_one, show transBuf.getD 22 0 = (1:ℚ) from rfl]
    norm_num
  have hws : transCfg.windowSize = 1 := rfl
  have hma : transCfg.minAmplitude = (1:ℚ)/10 := rfl
  have hs20 : detectStepQ 10 transBuf 10 transCfg 20 ⟨-2, []⟩ 20 = ⟨20, [transEv1]⟩ := by
    norm_num [detectStepQ, hws, hma, hmis, hQ20, hP20, transEv1]
  have hs21 : detectStepQ 10 transBuf 10 transCfg 20 ⟨20, [transEv1]⟩ 21 = ⟨20, [transEv1]⟩ := by
    norm_num [detectStepQ, hws, hmis, hQ21]
  have hs22 : detectStepQ 10 transBuf 10 transCfg 20 ⟨20, [transEv1]⟩ 22 =
      ⟨22, [transEv1, transEv2]⟩ := by
    norm_num [detectStepQ, hws, hma, hmis, hQ22, hP22, transEv2]
  have hs23 : detectStepQ 10 transBuf 10 transCfg 20 ⟨22, [transEv1, transEv2]⟩ 23 =
      ⟨22, [transEv1, transEv2]⟩ := by
    norm_num [detectStepQ, hws, hmis, hQ23]
  simp only [detectTransientsQ]
  rw [show avgWindowSize transBuf transCfg.windowSize = 20 from rfl,
    show numWindows transBuf transCfg.windowSize = 24 from rfl, hmis,
    show List.range' 20 (24 - 20) = [20, 21, 22, 23] from rfl]
  simp only [List.foldl_cons, List.foldl_nil]
  rw [show (-(2:ℤ)) = -2 from rfl, hs20, hs21, hs22, hs23]


/-- C5 counterexample: at sampleRate 10 with minIntervalSeconds = 0.25,
minIntervalSamples = floor(2.5) = 2, and detectTransients records two
events 2 samples = 0.2 s apart — closer than minIntervalSeconds. -/
theorem detectTransients_seconds_gap_violated :
    detectTransients transBuf 10 transCfg = [transEv1, transEv2] ∧
    transEv2.timeSeconds - transEv1.timeSeconds < transCfg.minIntervalSeconds := by
  constructor
  · rw [detectTransients_eq_Q transBuf 10 transCfg
      (by rw [show transCfg.thresholdDB = 10 from rfl]; exact thresholdLinear_ten)]
    exact transRun_eval
  · norm_num [show transEv1.timeSeconds = 2 from rfl,
      show transEv2.timeSeconds = (11:ℚ)/5 from rfl,
      show transCfg.minIntervalSeconds = (1:ℚ)/4 from rfl]

/-- C10 witness: the alignment theorem applied to the first event of the
concrete run (window 20, windowSize 1). -/
theorem detectTransients_event_alignment_witness :
    transEv1 ∈ detectTransients transBuf 10 transCfg ∧
    (transCfg.windowSize ∣ transEv1.sampleIndex ∧
      avgWindowSize transBuf transCfg.windowSize * transCfg.windowSize ≤
        transEv1.sampleIndex ∧
      (transCfg.windowSize = 512 → 20 ≤ numWindows transBuf transCfg.windowSize →
        10240 ≤ transEv1.sampleIndex)) := by
  have hmem : transEv1 ∈ detectTransients transBuf 10 transCfg := by
    rw [detectTransients_eq_Q transBuf 10 transCfg
      (by rw [show transCfg.thresholdDB = 10 from rfl]; exact thresholdLinear_ten),
      transRun_eval]
    exact List.mem_cons_self _ _
  exact ⟨hmem, detectTransients_event_alignment transBuf 10 transCfg transEv1 hmem⟩

/-- C8 witness: on quietSpikeBuf (0.4 spike after a 0.1 background) with
minAmplitude 0.5 the window fires on energy and interval but is
amplitude-gated, and the state (including the interval gate) is unchanged. -/
theorem detectStep_amplitude_gate_witness :
    windowPeak quietSpikeBuf quietSpikeCfg.windowSize 20 < quietSpikeCfg.minAmplitude ∧
    detectStep quietSpikeBuf 10 quietSpikeCfg 20 ⟨-2, []⟩ 20 = ⟨-2, []⟩ := by
  have hbg : bgWindowEnergy quietSpikeBuf 1 20 20 = 1/100 := by
    rw [bgWindowEnergy, show List.range 20 =
      [0, 1, 2, 3, 4, 5, 6, 7, 8, 9, 10, 11, 12, 13, 14, 15, 16, 17, 18, 19] from rfl]
    have hgd : ∀ j, j < 20 → quietSpikeBuf[j]?.getD 0 = (1:ℚ)/10 := by
      intro j hj
      interval_cases j <;> rfl
    norm_num [windowEnergy_one, hgd]
  have hwe : windowEnergy quietSpikeBuf 1 20 = 4/25 := by
    rw [windowEnergy_one, show quietSpikeBuf.getD 20 0 = (2:ℚ)/5 from rfl]
    norm_num
  have hq : energyQuotAt quietSpikeBuf 1 20 20 = 16 := by
    rw [energyQuotAt, hbg, if_pos (by norm_num), hwe]
    norm_num
  have hquiet : windowPeak quietSpikeBuf quietSpikeCfg.windowSize 20 <
      quietSpikeCfg.minAmplitude := by
    rw [show quietSpikeCfg.windowSize = 1 from rfl, windowPeak_one,
      show quietSpikeBuf.getD 20 0 = (2:ℚ)/5 from rfl,
      show quietSpikeCfg.minAmplitude = (1:ℚ)/2 from rfl,
      abs_of_nonneg (by norm_num : (0:ℚ) ≤ 2/5)]
    norm_num
  refine ⟨hquiet, detectStep_amplitude_gate quietSpikeBuf 10 quietSpikeCfg 20 ⟨-2, []⟩ 20
    ?_ ?_ hquiet⟩
  · rw [show quietSpikeCfg.thresholdDB = 10 from rfl, thresholdLinear_ten,
      show quietSpikeCfg.windowSize = 1 from rfl, hq]
    exact_mod_cast (by norm_num : (10:ℚ) < 16)
  · rw [show quietSpikeCfg.windowSize = 1 from rfl,
      show minIntervalSamples quietSpikeCfg 10 = 2 by
        norm_num [minIntervalSamples, show quietSpikeCfg.minIntervalSeconds = (1:ℚ)/4 from rfl]]
    norm_num

/-- The rating thresholds, characterised as an if-and-only-if partition of
the average dB axis. -/
theorem ratingOf_iff (x : ℝ) :
    (ratingOf x = NoiseRating.excellent ↔ x < -50) ∧
    (ratingOf x = NoiseRating.good ↔ -50 ≤ x ∧ x < -40) ∧
    (ratingOf x = NoiseRating.fair ↔ -40 ≤ x ∧ x < -30) ∧
    (ratingOf x = NoiseRating.poor ↔ -30 ≤ x) := by
  rw [ratingOf]
  split_ifs with h1 h2 h3
  · exact ⟨⟨fun _ => h1, fun _ => rfl⟩,
      ⟨fun h => absurd h (by decide), fun h => by exfalso; linarith [h.1]⟩,
      ⟨fun h => absurd h (by decide), fun h => by exfalso; linarith [h.1]⟩,
      ⟨fun h => absurd h (by decide), fun h => by exfalso; linarith⟩⟩
  · exact ⟨⟨fun h => absurd h (by decide), fun h => absurd h h1⟩,
      ⟨fun _ => ⟨not_lt.mp h1, h2⟩, fun _ => rfl⟩,
      ⟨fun h => absurd h (by decide), fun h => by exfalso; linarith [h.1]⟩,
      ⟨fun h => absurd h (by decide), fun h => by exfalso; linarith⟩⟩
  · exact ⟨⟨fun h => absurd h (by decide), fun h => absurd h h1⟩,
      ⟨fun h => absurd h (by decide), fun h => absurd h.2 h2⟩,
      ⟨fun _ => ⟨not_lt.mp h2, h3⟩, fun _ => rfl⟩,
      ⟨fun h => absurd h (by decide), fun h => by exfalso; linarith⟩⟩
  · exact ⟨⟨fun h => absurd h (by decide), fun h => absurd h h1⟩,
      ⟨fun h => absurd h (by decide), fun h => absurd h.2 h2⟩,
      ⟨fun h => absurd h (by decide), fun h => absurd h.2 h3⟩,
      ⟨fun _ => not_lt.mp h3, fun _ => rfl⟩⟩

/-- C9: for any non-empty samples list (and any snapshots), the rating of
analyseNoiseFloor is determined by averageDB alone with the thresholds
excellent < −50 ≤ good < −40 ≤ fair < −30 ≤ poor. -/
theorem analyseNoiseFloor_rating_iff (samples : List ℚ) (snapshots : List (List ℚ))
    (sampleRate fftSize : ℚ) (hne : samples ≠ []) :
    ((analyseNoiseFloor samples snapshots sampleRate fftSize).rating =
        NoiseRating.excellent ↔
      (analyseNoiseFloor samples snapshots sampleRate fftSize).averageDB < -50) ∧
    ((analyseNoiseFloor samples snapshots sampleRate fftSize).rating = NoiseRating.good ↔
      -50 ≤ (analyseNoiseFloor samples snapshots sampleRate fftSize).averageDB ∧
        (analyseNoiseFloor samples snapshots sampleRate fftSize).averageDB < -40) ∧
    ((analyseNoiseFloor samples snapshots sampleRate fftSize).rating = NoiseRating.fair ↔
      -40 ≤ (analyseNoiseFloor samples snapshots sampleRate fftSize).averageDB ∧
        (analyseNoiseFloor samples snapshots sampleRate fftSize).averageDB < -30) ∧
    ((analyseNoiseFloor samples snapshots sampleRate fftSize).rating = NoiseRating.poor ↔
      -30 ≤ (analyseNoiseFloor samples snapshots sampleRate fftSize).averageDB) := by
  have hr : (analyseNoiseFloor samples snapshots sampleRate fftSize).rating =
      ratingOf ((analyseNoiseFloor samples snapshots sampleRate fftSize).averageDB) := rfl
  rw [hr]
  exact ratingOf_iff _

/-- The average dB of the single 10⁻⁶ RMS sample is exactly −120 dB. -/
theorem noiseSample_averageDB :
    (analyseNoiseFloor [(1:ℚ)/1000000] [] 44100 8192).averageDB = -120 := by
  have h1 : (analyseNoiseFloor [(1:ℚ)/1000000] [] 44100 8192).averageDB =
      linearToDB (([(1:ℚ)/1000000].sum) / (([(1:ℚ)/1000000].length : ℕ) : ℚ)) := rfl
  rw [h1, linearToDB]
  have h2 : (max (([(1:ℚ)/1000000].sum) / (([(1:ℚ)/1000000].length : ℕ) : ℚ))
      (1 / 10 ^ 10)) = 1/1000000 := by
    norm_num
  rw [h2]
  have h3 : (((1:ℚ)/1000000 : ℚ) : ℝ) = (10:ℝ) ^ ((-6 : ℝ)) := by
    rw [show ((-6:ℝ)) = ((-6 : ℤ) : ℝ) by norm_num, Real.rpow_intCast]
    norm_num
  rw [h3, Real.logb_rpow (by norm_num) (by norm_num)]
  norm_num

/-- C9 witness: a single quiet sample at 10⁻⁶ RMS (−120 dB, quieter than
the spec's −55 dB scenario) yields rating excellent. -/
theorem analyseNoiseFloor_rating_iff_witness :
    ([(1:ℚ)/1000000] : List ℚ) ≠ [] ∧
    (analyseNoiseFloor [(1:ℚ)/1000000] [] 44100 8192).rating = NoiseRating.excellent := by
  have hne : ([(1:ℚ)/1000000] : List ℚ) ≠ [] := by simp
  refine ⟨hne, ((analyseNoiseFloor_rating_iff [(1:ℚ)/1000000] [] 44100 8192 hne).1).mpr ?_⟩
  rw [noiseSample_averageDB]
  norm_num

/-- Rounding moves a real by at most 1/2. -/
theorem jsRoundR_dist (x : ℝ) : |((jsRoundR x : ℤ) : ℝ) - x| ≤ 1/2 := by
  rw [jsRoundR]
  have h1 := Int.floor_le (x + 1/2)
  have h2 := Int.lt_floor_add_one (x + 1/2)
  rw [abs_le]
  constructor <;> push_cast at h1 h2 ⊢ <;> linarith

/-- The JavaScript double-mod note index equals the euclidean remainder. -/
theorem tmod_note_index (a : ℤ) : ((a.tmod 12) + 12).tmod 12 = a % 12 := by
  have hdef : a.tmod 12 = a - 12 * (a.tdiv 12) := by
    have := Int.tmod_def a 12
    linarith
  have hub : a.tmod 12 < 12 := Int.tmod_lt_of_pos a (by norm_num)
  have hlb : -12 < a.tmod 12 := by
    have hdef2 : (-a).tmod 12 = -a - 12 * ((-a).tdiv 12) := by
      have := Int.tmod_def (-a) 12
      linarith
    have hneg : (-a).tdiv 12 = -(a.tdiv 12) := Int.neg_tdiv a 12
    have : (-a).tmod 12 < 12 := Int.tmod_lt_of_pos (-a) (by norm_num)
    omega
  rw [Int.tmod_eq_emod (by omega) (by norm_num)]
  omega

/-- Looking a note name back up in NOTE_NAMES recovers its index. -/
theorem noteNames_findIdx (k : ℤ) (h0 : 0 ≤ k) (h12 : k < 12) :
    NOTE_NAMES.findIdx? (fun s => s == NOTE_NAMES.getD k.toNat "") = some k.toNat := by
  interval_cases k <;> rfl

/-- C3 (amended): whenever frequencyToNote reports 0 cents, noteToFrequency
on the reported note name and octave returns the exact 12-TET frequency
440·2^(roundedSemitones/12) — which equals the stored exactFrequency field
only up to the 2-decimal rounding applied to that field: they differ by at
most 0.005 (and generally differ — see the counterexample). -/
theorem frequencyToNote_roundTrip (hz : ℝ) (hhz : 0 < hz)
    (hcents : (frequencyToNote hz).cents = 0) :
    noteToFrequency (frequencyToNote hz).noteName (frequencyToNote hz).octave =
      440 * (2:ℝ) ^ (((jsRoundR (12 * Real.logb 2 (hz / 440)) : ℤ) : ℝ) / 12) ∧
    |(frequencyToNote hz).exactFrequency -
      noteToFrequency (frequencyToNote hz).noteName (frequencyToNote hz).octave| ≤
        1/200 := by
  set r : ℤ := jsRoundR (12 * Real.logb 2 (hz / 440)) with hr
  set m : ℤ := 69 + r with hm
  have hnn : (frequencyToNote hz).noteName =
      NOTE_NAMES.getD (((m.tmod 12) + 12).tmod 12).toNat "" := rfl
  have hoct : (frequencyToNote hz).octave = m.fdiv 12 - 1 := rfl
  have hex : (frequencyToNote hz).exactFrequency =
      ((jsRoundR (440 * (2:ℝ) ^ ((r : ℝ) / 12) * 100) : ℤ) : ℝ) / 100 := rfl
  have hmod : ((m.tmod 12) + 12).tmod 12 = m % 12 := tmod_note_index m
  have h0 : 0 ≤ m % 12 := Int.emod_nonneg m (by norm_num)
  have h12 : m % 12 < 12 := Int.emod_lt_of_pos m (by norm_num)
  have hfind := noteNames_findIdx (m % 12) h0 h12
  have hmain : noteToFrequency (frequencyToNote hz).noteName (frequencyToNote hz).octave =
      440 * (2:ℝ) ^ ((r : ℝ) / 12) := by
    rw [hnn, hoct, hmod, noteToFrequency, hfind]
    have hcast : ((m.fdiv 12 - 1 + 1) * 12 + (((m % 12).toNat : ℕ) : ℤ) - 69 : ℤ) = r := by
      rw [Int.fdiv_eq_ediv m (by norm_num : (0:ℤ) ≤ 12),
        Int.toNat_of_nonneg h0]
      omega
    show (440 : ℝ) * 2 ^
        ((((m.fdiv 12 - 1 + 1) * 12 + (((m % 12).toNat : ℕ) : ℤ) - 69 : ℤ) : ℝ) / 12) =
      440 * 2 ^ ((r : ℝ) / 12)
    rw [hcast]
  refine ⟨hmain, ?_⟩
  rw [hmain, hex]
  have hdist := jsRoundR_dist (440 * (2:ℝ) ^ ((r : ℝ) / 12) * 100)
  rw [abs_le] at hdist ⊢
  constructor <;> [skip; skip] <;> nlinarith [hdist.1, hdist.2]

/-- C3 witness: the amended round-trip theorem applied at 440 Hz (A4, a
note with 0 cents deviation). -/
theorem frequencyToNote_roundTrip_witness :
    (0:ℝ) < 440 ∧ (frequencyToNote 440).cents = 0 ∧
    (noteToFrequency (frequencyToNote 440).noteName (frequencyToNote 440).octave =
      440 * (2:ℝ) ^ (((jsRoundR (12 * Real.logb 2 ((440:ℝ) / 440)) : ℤ) : ℝ) / 12) ∧
    |(frequencyToNote 440).exactFrequency -
      noteToFrequency (frequencyToNote 440).noteName (frequencyToNote 440).octave| ≤
        1/200) := by
  have hlog : 12 * Real.logb 2 ((440:ℝ) / 440) = 0 := by
    rw [show ((440:ℝ) / 440) = 1 by norm_num, Real.logb_one, mul_zero]
  have hr0 : jsRoundR (12 * Real.logb 2 ((440:ℝ) / 440)) = 0 := by
    rw [hlog, jsRoundR]
    norm_num
  have hcents : (frequencyToNote 440).cents = 0 := by
    have hc : (frequencyToNote 440).cents =
        jsRoundR ((12 * Real.logb 2 ((440:ℝ) / 440) -
          ((jsRoundR (12 * Real.logb 2 ((440:ℝ) / 440)) : ℤ) : ℝ)) * 100) := rfl
    rw [hc, hr0, hlog, jsRoundR]
    norm_num
  exact ⟨by norm_num, hcents, frequencyToNote_roundTrip 440 (by norm_num) hcents⟩

/-- The exact value of 2^(3/4), pinned between two rationals whose fourth
powers straddle 8. -/
theorem two_rpow_three_quarters_bounds :
    (1681792/1000000 : ℝ) < (2:ℝ) ^ ((3:ℝ)/4) ∧
    (2:ℝ) ^ ((3:ℝ)/4) < (1681793/1000000 : ℝ) := by
  have hpow_pos : (0:ℝ) < (2:ℝ) ^ ((3:ℝ)/4) := Real.rpow_pos_of_pos (by norm_num) _
  have ht4 : ((2:ℝ) ^ ((3:ℝ)/4)) ^ (4:ℕ) = 8 := by
    rw [← Real.rpow_natCast ((2:ℝ) ^ ((3:ℝ)/4)) 4, ← Real.rpow_mul (by norm_num : (0:ℝ) ≤ 2)]
    rw [show ((3:ℝ)/4) * ((4:ℕ):ℝ) = ((3:ℕ):ℝ) by norm_num, Real.rpow_natCast]
    norm_num
  constructor
  · apply lt_of_pow_lt_pow_left 4 hpow_pos.le
    rw [ht4]
    norm_num
  · apply lt_of_pow_lt_pow_left 4 (by norm_num : (0:ℝ) ≤ (1681793/1000000 : ℝ))
    rw [ht4]
    norm_num

/-- C3 counterexample: at the exact 12-TET input 440·2^(−9/12) (a C4,
0 cents), the recovered frequency 440·2^(−9/12) differs from the stored
exactFrequency 261.63, because the latter is rounded to 2 decimals. -/
theorem frequencyToNote_roundTrip_not_exact :
    (frequencyToNote c4NoteHz).cents = 0 ∧
    noteToFrequency (frequencyToNote c4NoteHz).noteName (frequencyToNote c4NoteHz).octave ≠
      (frequencyToNote c4NoteHz).exactFrequency := by
  have hsem : 12 * Real.logb 2 (c4NoteHz / 440) = -9 := by
    rw [c4NoteHz, mul_div_cancel_left₀ _ (by norm_num : (440:ℝ) ≠ 0),
      Real.logb_rpow (by norm_num) (by norm_num)]
    norm_num
  have hr9 : jsRoundR (12 * Real.logb 2 (c4NoteHz / 440)) = -9 := by
    rw [hsem, jsRoundR]
    norm_num
  have hcents : (frequencyToNote c4NoteHz).cents = 0 := by
    have hc : (frequencyToNote c4NoteHz).cents =
        jsRoundR ((12 * Real.logb 2 (c4NoteHz / 440) -
          ((jsRoundR (12 * Real.logb 2 (c4NoteHz / 440)) : ℤ) : ℝ)) * 100) := rfl
    rw [hc, hr9, hsem, jsRoundR]
    norm_num
  have hnn : (frequencyToNote c4NoteHz).noteName =
      NOTE_NAMES.getD ((((69 + jsRoundR (12 * Real.logb 2 (c4NoteHz / 440))).tmod 12) +
        12).tmod 12).toNat "" := rfl
  have hname : (frequencyToNote c4NoteHz).noteName = "C" := by
    rw [hnn, hr9]
    rfl
  have hoct : (frequencyToNote c4NoteHz).octave = 4 := by
    have h : (frequencyToNote c4NoteHz).octave =
        (69 + jsRoundR (12 * Real.logb 2 (c4NoteHz / 440))).fdiv 12 - 1 := rfl
    rw [h, hr9]
    rfl
  have hbounds := two_rpow_three_quarters_bounds
  set t : ℝ := (2:ℝ) ^ ((3:ℝ)/4) with hts
  have htpos : (0:ℝ) < t := Real.rpow_pos_of_pos (by norm_num) _
  have ht4 : t ^ (4:ℕ) = 8 := by
    rw [hts, ← Real.rpow_natCast ((2:ℝ) ^ ((3:ℝ)/4)) 4,
      ← Real.rpow_mul (by norm_num : (0:ℝ) ≤ 2),
      show ((3:ℝ)/4) * ((4:ℕ):ℝ) = ((3:ℕ):ℝ) by norm_num, Real.rpow_natCast]
    norm_num
  have hinv : (2:ℝ) ^ ((-9:ℝ)/12) = t⁻¹ := by
    rw [hts, show ((-9:ℝ)/12) = -((3:ℝ)/4) by norm_num,
      Real.rpow_neg (by norm_num : (0:ℝ) ≤ 2)]
  have hexact : (frequencyToNote c4NoteHz).exactFrequency = 26163 / 100 := by
    have h : (frequencyToNote c4NoteHz).exactFrequency =
        ((jsRoundR (440 * (2:ℝ) ^
          (((jsRoundR (12 * Real.logb 2 (c4NoteHz / 440)) : ℤ) : ℝ) / 12) * 100) : ℤ) : ℝ) /
          100 := rfl
    rw [h, hr9, show (((-9:ℤ)):ℝ) / 12 = ((-9:ℝ)/12) by norm_num, hinv]
    have hval : jsRoundR (440 * t⁻¹ * 100) = 26163 := by
      rw [jsRoundR]
      have h1 : 440 * t⁻¹ * 100 = 44000 / t := by
        rw [div_eq_mul_inv]
        ring
      rw [h1]
      have hlo : (26162.5 : ℝ) ≤ 44000 / t := by
        rw [le_div_iff₀ htpos]
        nlinarith [hbounds.2]
      have hhi : 44000 / t < (26163.5 : ℝ) := by
        rw [div_lt_iff₀ htpos]
        nlinarith [hbounds.1]
      have : (⌊44000 / t + 1/2⌋ : ℤ) = 26163 := by
        rw [Int.floor_eq_iff]
        constructor <;> push_cast <;> linarith
      exact this
    rw [hval]
    norm_num
  refine ⟨hcents, ?_⟩
  rw [hname, hoct, hexact]
  have hrecov : noteToFrequency "C" 4 = 440 * (2:ℝ) ^ ((-9:ℝ)/12) := by
    rw [noteToFrequency, show NOTE_NAMES.findIdx? (fun s => s == "C") = some 0 from rfl]
    norm_num
  rw [hrecov, hinv]
  intro heq
  have ht_eq : t = 44000 / (26163 / 100) := by
    field_simp at heq ⊢
    nlinarith [htpos, heq]
  have : t ^ (4:ℕ) = (44000 / (26163 / 100) : ℝ) ^ (4:ℕ) := by rw [ht_eq]
  rw [ht4] at this
  norm_num at this

/-- Each HPS product is 10 to its summed-dB exponent over 20. -/
theorem hpsProduct_eq_rpow (spec : List ℚ) (n i : ℕ) :
    hpsProduct spec n i = (10:ℝ) ^ (((hpsExpSum spec n i : ℚ) : ℝ) / 20) := by
  have hsum : ∀ (s : Finset ℕ) (g : ℕ → ℝ),
      (10:ℝ) ^ (∑ h ∈ s, g h) = ∏ h ∈ s, (10:ℝ) ^ g h := by
    intro s g
    refine Finset.induction_on s ?_ ?_
    · simp
    · intro a t ha ih
      rw [Finset.sum_insert ha, Finset.prod_insert ha,
        Real.rpow_add (by norm_num : (0:ℝ) < 10), ih]
  have hfac : ∀ h : ℕ,
      (if i * h < spec.length then dbToAmp (spec.getD (i * h) 0) else 1) =
        (10:ℝ) ^ ((((if i * h < spec.length then spec.getD (i * h) 0 else 0) : ℚ) : ℝ) / 20) := by
    intro h
    split_ifs with hc
    · rw [dbToAmp]
    · norm_num
  rw [hpsProduct, dbToAmp, Finset.prod_congr rfl (fun h _ => hfac h), ← hsum,
    ← Real.rpow_add (by norm_num : (0:ℝ) < 10)]
  congr 1
  rw [hpsExpSum]
  push_cast
  rw [add_div, Finset.sum_div]

/-- HPS products compare exactly as their summed-dB exponents. -/
theorem hpsProduct_lt_iff (spec : List ℚ) (n i j : ℕ) :
    hpsProduct spec n i < hpsProduct spec n j ↔
      hpsExpSum spec n i < hpsExpSum spec n j := by
  rw [hpsProduct_eq_rpow, hpsProduct_eq_rpow,
    Real.rpow_lt_rpow_left_iff (by norm_num : (1:ℝ) < 10),
    div_lt_div_iff_of_pos_right (by norm_num : (0:ℝ) < 20)]
  exact Rat.cast_lt

/-- One step of the HPS scan relates the EReal maximum state to the
rational exponent state. -/
theorem hpsScanStep_rel (spec : List ℚ) (n : ℕ) (s1 : EReal) (s2 : ℕ)
    (q1 : Option ℚ) (q2 : ℕ) (a : ℕ) (h2 : s2 = q2)
    (h1 : (s1 = ⊥ ∧ q1 = none) ∨
      ∃ e : ℚ, q1 = some e ∧ s1 = (((10:ℝ) ^ ((e : ℝ) / 20) : ℝ) : EReal)) :
    (hpsScanStep spec n (s1, s2) a).2 = (hpsScanStepQ spec n (q1, q2) a).2 ∧
    (((hpsScanStep spec n (s1, s2) a).1 = ⊥ ∧ (hpsScanStepQ spec n (q1, q2) a).1 = none) ∨
      ∃ e : ℚ, (hpsScanStepQ spec n (q1, q2) a).1 = some e ∧
        (hpsScanStep spec n (s1, s2) a).1 = (((10:ℝ) ^ ((e : ℝ) / 20) : ℝ) : EReal)) := by
  subst h2
  have hstep : hpsScanStep spec n (s1, s2) a =
      if s1 < ((hpsProduct spec n a : ℝ) : EReal) then
        (((hpsProduct spec n a : ℝ) : EReal), a)
      else (s1, s2) := rfl
  rcases h1 with ⟨hs, hq⟩ | ⟨e, hq, hs⟩
  · subst hs
    subst hq
    have hQ : hpsScanStepQ spec n (none, s2) a = (some (hpsExpSum spec n a), a) := rfl
    rw [hstep, hQ, if_pos (EReal.bot_lt_coe _)]
    exact ⟨rfl, Or.inr ⟨hpsExpSum spec n a, rfl,
      congrArg (fun x : ℝ => (x : EReal)) (hpsProduct_eq_rpow spec n a)⟩⟩
  · subst hs
    subst hq
    have hQ : hpsScanStepQ spec n (some e, s2) a =
        if e < hpsExpSum spec n a then (some (hpsExpSum spec n a), a)
        else (some e, s2) := rfl
    rw [hstep, hQ]
    by_cases he : e < hpsExpSum spec n a
    · have hlt : (((10:ℝ) ^ ((e : ℝ) / 20) : ℝ) : EReal) <
          ((hpsProduct spec n a : ℝ) : EReal) := by
        rw [EReal.coe_lt_coe_iff, hpsProduct_eq_rpow,
          Real.rpow_lt_rpow_left_iff (by norm_num : (1:ℝ) < 10),
          div_lt_div_iff_of_pos_right (by norm_num : (0:ℝ) < 20)]
        exact_mod_cast he
      rw [if_pos hlt, if_pos he]
      exact ⟨rfl, Or.inr ⟨hpsExpSum spec n a, rfl,
        congrArg (fun x : ℝ => (x : EReal)) (hpsProduct_eq_rpow spec n a)⟩⟩
    · have hlt : ¬((((10:ℝ) ^ ((e : ℝ) / 20) : ℝ) : EReal) <
          ((hpsProduct spec n a : ℝ) : EReal)) := by
        rw [EReal.coe_lt_coe_iff, hpsProduct_eq_rpow,
          Real.rpow_lt_rpow_left_iff (by norm_num : (1:ℝ) < 10),
          div_lt_div_iff_of_pos_right (by norm_num : (0:ℝ) < 20)]
        intro hcon
        exact he (Rat.cast_lt.mp hcon)
      rw [if_neg hlt, if_neg he]
      exact ⟨rfl, Or.inr ⟨e, rfl, rfl⟩⟩

/-- The folded HPS scans agree on the winning bin. -/
theorem hpsScan_foldl_rel (spec : List ℚ) (n : ℕ) (l : List ℕ) :
    ∀ (s : EReal × ℕ) (q : Option ℚ × ℕ), s.2 = q.2 →
    ((s.1 = ⊥ ∧ q.1 = none) ∨
      ∃ e : ℚ, q.1 = some e ∧ s.1 = (((10:ℝ) ^ ((e : ℝ) / 20) : ℝ) : EReal)) →
    (l.foldl (hpsScanStep spec n) s).2 = (l.foldl (hpsScanStepQ spec n) q).2 := by
  induction l with
  | nil => intro s q h2 _; exact h2
  | cons a t ih =>
    intro s q h2 h1
    rw [List.foldl_cons, List.foldl_cons]
    obtain ⟨g2, g1⟩ := hpsScanStep_rel spec n s.1 s.2 q.1 q.2 a h2 h1
    exact ih _ _ g2 g1

/-- The HPS peak bin agrees with its computable twin. -/
theorem hpsPeakBin_eq_Q (spec : List ℚ) (sampleRate fftSize : ℚ) (n : ℕ) :
    hpsPeakBin spec sampleRate fftSize n = hpsPeakBinQ spec sampleRate fftSize n := by
  rw [hpsPeakBin, hpsPeakBinQ]
  exact hpsScan_foldl_rel spec n _ _ _ rfl (Or.inl ⟨rfl, rfl⟩)

/-- classifyHarmonics accepts at most one harmonic per considered peak,
and considers at most the top 16 peaks. -/
theorem classifyHarmonics_length_le (fundamental : ℚ) (peaks : List SpectralPeak) :
    (classifyHarmonics fundamental peaks).length ≤ min peaks.length 16 := by
  have hgen : ∀ (g : List HarmonicPeak → SpectralPeak → List HarmonicPeak),
      (∀ acc x, (g acc x).length ≤ acc.length + 1) →
      ∀ (l : List SpectralPeak) (acc : List HarmonicPeak),
        (l.foldl g acc).length ≤ acc.length + l.length := by
    intro g hg l
    induction l with
    | nil => intro acc; simp
    | cons x t ih =>
      intro acc
      rw [List.foldl_cons]
      have h1 := ih (g acc x)
      have h2 := hg acc x
      simp only [List.length_cons]
      omega
  rw [classifyHarmonics]
  have hstep : ∀ (acc : List HarmonicPeak) (x : SpectralPeak),
      ((fun hs p =>
        if 1 ≤ jsRound (p.frequency / fundamental) ∧
            |p.frequency / fundamental -
              ((jsRound (p.frequency / fundamental) : ℤ) : ℚ)| < 2/25 then
          hs ++ [⟨p.frequency, p.amplitude, jsRound (p.frequency / fundamental)⟩]
        else hs) acc x : List HarmonicPeak).length ≤ acc.length + 1 := by
    intro acc x
    dsimp only
    split_ifs
    · simp
    · simp
  have h2 := hgen _ hstep (peaks.take 16) []
  simp only [List.length_nil, Nat.zero_add, List.length_take] at h2
  rw [min_comm peaks.length 16]
  exact h2

/-- C2 (amended): detectOvertones' confidence is the accepted-harmonic
count over min(peak count, 10); it is non-negative, at most 8/5, equal to
0 when no peaks exist, and lies in [0, 1] whenever at most 10 peaks are
found — but with more than 10 peaks it can exceed 1 (see the
counterexample). -/
theorem detectOvertones_confidence_bounds (spec : List ℚ) (sampleRate fftSize : ℚ) :
    0 ≤ (detectOvertones spec sampleRate fftSize).confidence ∧
    (detectOvertones spec sampleRate fftSize).confidence ≤ 8/5 ∧
    ((findSpectralPeaks spec sampleRate fftSize (-60) 5).length ≤ 10 →
      (detectOvertones spec sampleRate fftSize).confidence ≤ 1) ∧
    ((findSpectralPeaks spec sampleRate fftSize (-60) 5).length = 0 →
      (detectOvertones spec sampleRate fftSize).confidence = 0) := by
  have hconf : (detectOvertones spec sampleRate fftSize).confidence =
      if 0 < (findSpectralPeaks spec sampleRate fftSize (-60) 5).length then
        ((classifyHarmonics (harmonicProductSpectrum spec sampleRate fftSize 5)
          (findSpectralPeaks spec sampleRate fftSize (-60) 5)).length : ℚ) /
          ((min (findSpectralPeaks spec sampleRate fftSize (-60) 5).length 10 : ℕ) : ℚ)
      else 0 := rfl
  have hmle := classifyHarmonics_length_le
    (harmonicProductSpectrum spec sampleRate fftSize 5)
    (findSpectralPeaks spec sampleRate fftSize (-60) 5)
  rw [hconf]
  by_cases hple : 0 < (findSpectralPeaks spec sampleRate fftSize (-60) 5).length
  · rw [if_pos hple]
    have hd : (1 : ℕ) ≤ min (findSpectralPeaks spec sampleRate fftSize (-60) 5).length 10 := by
      omega
    have hdpos : (0:ℚ) <
        ((min (findSpectralPeaks spec sampleRate fftSize (-60) 5).length 10 : ℕ) : ℚ) := by
      exact_mod_cast Nat.lt_of_lt_of_le Nat.zero_lt_one hd
    refine ⟨div_nonneg (by positivity) hdpos.le, ?_, ?_, ?_⟩
    · rw [div_le_iff₀ hdpos]
      rcases le_or_lt (findSpectralPeaks spec sampleRate fftSize (-60) 5).length 10 with
        h10 | h10
      · have hdm : (classifyHarmonics (harmonicProductSpectrum spec sampleRate fftSize 5)
            (findSpectralPeaks spec sampleRate fftSize (-60) 5)).length ≤
            min (findSpectralPeaks spec sampleRate fftSize (-60) 5).length 10 := by
          omega
        have hq : ((classifyHarmonics (harmonicProductSpectrum spec sampleRate fftSize 5)
            (findSpectralPeaks spec sampleRate fftSize (-60) 5)).length : ℚ) ≤
            ((min (findSpectralPeaks spec sampleRate fftSize (-60) 5).length 10 : ℕ) : ℚ) := by
          exact_mod_cast hdm
        nlinarith [hdpos]
      · have hmin : min (findSpectralPeaks spec sampleRate fftSize (-60) 5).length 10 = 10 := by
          omega
        have h16 : (classifyHarmonics (harmonicProductSpectrum spec sampleRate fftSize 5)
            (findSpectralPeaks spec sampleRate fftSize (-60) 5)).length ≤ 16 := by
          omega
        have hq : ((classifyHarmonics (harmonicProductSpectrum spec sampleRate fftSize 5)
            (findSpectralPeaks spec sampleRate fftSize (-60) 5)).length : ℚ) ≤ 16 := by
          exact_mod_cast h16
        rw [hmin]
        push_cast
        linarith
    · intro h10
      rw [div_le_one hdpos]
      have hdm : (classifyHarmonics (harmonicProductSpectrum spec sampleRate fftSize 5)
          (findSpectralPeaks spec sampleRate fftSize (-60) 5)).length ≤
          min (findSpectralPeaks spec sampleRate fftSize (-60) 5).length 10 := by
        omega
      exact_mod_cast hdm
    · intro h0
      exact absurd h0 (by omega)
  · rw [if_neg hple]
    exact ⟨le_refl 0, by norm_num, fun _ => by norm_num, fun _ => rfl⟩

/-- C2 witness: the bounds theorem applied to the empty spectrum (no
peaks, confidence 0). -/
theorem detectOvertones_confidence_bounds_witness :
    0 ≤ (detectOvertones [] 1 1).confidence ∧
    (detectOvertones [] 1 1).confidence ≤ 8/5 ∧
    (detectOvertones [] 1 1).confidence ≤ 1 ∧
    (detectOvertones [] 1 1).confidence = 0 := by
  have h := detectOvertones_confidence_bounds [] 1 1
  have hlen : (findSpectralPeaks [] 1 1 (-60) 5).length = 0 := rfl
  exact ⟨h.1, h.2.1, h.2.2.1 (by rw [hlen]; omega), h.2.2.2 hlen⟩

/-- C2 counterexample: on overSpec (11 exact-harmonic peaks of a 20 Hz
fundamental) detectOvertones returns confidence 11/10 > 1: eleven of the
top-16 peaks are accepted while the divisor is min(11, 10) = 10. -/
theorem detectOvertones_confidence_exceeds_one :
    (detectOvertones overSpec 2048 512).confidence = 11/10 := by
  have hminbin : hpsMinBin 2048 512 = 5 := by
    rw [hpsMinBin, show Int.ceil ((20:ℚ) * 512 / 2048) = 5 by norm_num]
    rfl
  have hicc : (Finset.Icc 2 5 : Finset ℕ) = insert 2 (insert 3 (insert 4 {5})) := by
    decide
  have hexp5 : hpsExpSum overSpec 5 5 = 0 := by
    rw [hpsExpSum, hicc, Finset.sum_insert (by decide), Finset.sum_insert (by decide),
      Finset.sum_insert (by decide), Finset.sum_singleton,
      if_pos (by decide : 5 * 2 < overSpec.length),
      if_pos (by decide : 5 * 3 < overSpec.length),
      if_pos (by decide : 5 * 4 < overSpec.length),
      if_pos (by decide : 5 * 5 < overSpec.length),
      show overSpec.getD 5 0 = (0:ℚ) from rfl,
      show overSpec.getD (5 * 2) 0 = (0:ℚ) from rfl,
      show overSpec.getD (5 * 3) 0 = (0:ℚ) from rfl,
      show overSpec.getD (5 * 4) 0 = (0:ℚ) from rfl,
      show overSpec.getD (5 * 5) 0 = (0:ℚ) from rfl]
    norm_num
  have hexp6 : hpsExpSum overSpec 5 6 = -400 := by
    rw [hpsExpSum, hicc, Finset.sum_insert (by decide), Finset.sum_insert (by decide),
      Finset.sum_insert (by decide), Finset.sum_singleton,
      if_pos (by decide : 6 * 2 < overSpec.length),
      if_pos (by decide : 6 * 3 < overSpec.length),
      if_pos (by decide : 6 * 4 < overSpec.length),
      if_pos (by decide : 6 * 5 < overSpec.length),
      show overSpec.getD 6 0 = (-100:ℚ) from rfl,
      show overSpec.getD (6 * 2) 0 = (-100:ℚ) from rfl,
      show overSpec.getD (6 * 3) 0 = (-100:ℚ) from rfl,
      show overSpec.getD (6 * 4) 0 = (-100:ℚ) from rfl,
      show overSpec.getD (6 * 5) 0 = (0:ℚ) from rfl]
    norm_num
  have hexp7 : hpsExpSum overSpec 5 7 = -400 := by
    rw [hpsExpSum, hicc, Finset.sum_insert (by decide), Finset.sum_insert (by decide),
      Finset.sum_insert (by decide), Finset.sum_singleton,
      if_pos (by decide : 7 * 2 < overSpec.length),
      if_pos (by decide : 7 * 3 < overSpec.length),
      if_pos (by decide : 7 * 4 < overSpec.length),
      if_pos (by decide : 7 * 5 < overSpec.length),
      show overSpec.getD 7 0 = (-100:ℚ) from rfl,
      show overSpec.getD (7 * 2) 0 = (-100:ℚ) from rfl,
      show overSpec.getD (7 * 3) 0 = (-100:ℚ) from rfl,
      show overSpec.getD (7 * 4) 0 = (-100:ℚ) from rfl,
      show overSpec.getD (7 * 5) 0 = (0:ℚ) from rfl]
    norm_num
  have hexp8 : hpsExpSum overSpec 5 8 = -400 := by
    rw [hpsExpSum, hicc, Finset.sum_insert (by decide), Finset.sum_insert (by decide),
      Finset.sum_insert (by decide), Finset.sum_singleton,
      if_pos (by decide : 8 * 2 < overSpec.length),
      if_pos (by decide : 8 * 3 < overSpec.length),
      if_pos (by decide : 8 * 4 < overSpec.length),
      if_pos (by decide : 8 * 5 < overSpec.length),
      show overSpec.getD 8 0 = (-100:ℚ) from rfl,
      show overSpec.getD (8 * 2) 0 = (-100:ℚ) from rfl,
      show overSpec.getD (8 * 3) 0 = (-100:ℚ) from rfl,
      show overSpec.getD (8 * 4) 0 = (-100:ℚ) from rfl,
      show overSpec.getD (8 * 5) 0 = (0:ℚ) from rfl]
    norm_num
  have hexp9 : hpsExpSum overSpec 5 9 = -400 := by
    rw [hpsExpSum, hicc, Finset.sum_insert (by decide), Finset.sum_insert (by decide),
      Finset.sum_insert (by decide), Finset.sum_singleton,
      if_pos (by decide : 9 * 2 < overSpec.length),
      if_pos (by decide : 9 * 3 < overSpec.length),
      if_pos (by decide : 9 * 4 < overSpec.length),
      if_pos (by decide : 9 * 5 < overSpec.length),
      show overSpec.getD 9 0 = (-100:ℚ) from rfl,
      show overSpec.getD (9 * 2) 0 = (-100:ℚ) from rfl,
      show overSpec.getD (9 * 3) 0 = (-100:ℚ) from rfl,
      show overSpec.getD (9 * 4) 0 = (-100:ℚ) from rfl,
      show overSpec.getD (9 * 5) 0 = (0:ℚ) from rfl]
    norm_num
  have hexp10 : hpsExpSum overSpec 5 10 = 0 := by
    rw [hpsExpSum, hicc, Finset.sum_insert (by decide), Finset.sum_insert (by decide),
      Finset.sum_insert (by decide), Finset.sum_singleton,
      if_pos (by decide : 10 * 2 < overSpec.length),
      if_pos (by decide : 10 * 3 < overSpec.length),
      if_pos (by decide : 10 * 4 < overSpec.length),
      if_pos (by decide : 10 * 5 < overSpec.length),
      show overSpec.getD 10 0 = (0:ℚ) from rfl,
      show overSpec.getD (10 * 2) 0 = (0:ℚ) from rfl,
      show overSpec.getD (10 * 3) 0 = (0:ℚ) from rfl,
      show overSpec.getD (10 * 4) 0 = (0:ℚ) from rfl,
      show overSpec.getD (10 * 5) 0 = (0:ℚ) from rfl]
    norm_num
  have hbinq : hpsPeakBinQ overSpec 2048 512 5 = 5 := by
    simp only [hpsPeakBinQ]
    rw [hminbin, show overSpec.length = 58 from rfl,
      show List.range' 5 (58 / 5 - 5) = [5, 6, 7, 8, 9, 10] from rfl]
    simp only [List.foldl_cons, List.foldl_nil]
    rw [show hpsScanStepQ overSpec 5 (none, 5) 5 = (some (hpsExpSum overSpec 5 5), 5)
      from rfl, hexp5]
    have h6 : hpsScanStepQ overSpec 5 (some 0, 5) 6 = (some 0, 5) := by
      rw [show hpsScanStepQ overSpec 5 (some 0, 5) 6 =
        if (0:ℚ) < hpsExpSum overSpec 5 6 then (some (hpsExpSum overSpec 5 6), 6)
        else (some 0, 5) from rfl, hexp6, if_neg (by norm_num)]
    have h7 : hpsScanStepQ overSpec 5 (some 0, 5) 7 = (some 0, 5) := by
      rw [show hpsScanStepQ overSpec 5 (some 0, 5) 7 =
        if (0:ℚ) < hpsExpSum overSpec 5 7 then (some (hpsExpSum overSpec 5 7), 7)
        else (some 0, 5) from rfl, hexp7, if_neg (by norm_num)]
    have h8 : hpsScanStepQ overSpec 5 (some 0, 5) 8 = (some 0, 5) := by
      rw [show hpsScanStepQ overSpec 5 (some 0, 5) 8 =
        if (0:ℚ) < hpsExpSum overSpec 5 8 then (some (hpsExpSum overSpec 5 8), 8)
        else (some 0, 5) from rfl, hexp8, if_neg (by norm_num)]
    have h9 : hpsScanStepQ overSpec 5 (some 0, 5) 9 = (some 0, 5) := by
      rw [show hpsScanStepQ overSpec 5 (some 0, 5) 9 =
        if (0:ℚ) < hpsExpSum overSpec 5 9 then (some (hpsExpSum overSpec 5 9), 9)
        else (some 0, 5) from rfl, hexp9, if_neg (by norm_num)]
    have h10 : hpsScanStepQ overSpec 5 (some 0, 5) 10 = (some 0, 5) := by
      rw [show hpsScanStepQ overSpec 5 (some 0, 5) 10 =
        if (0:ℚ) < hpsExpSum overSpec 5 10 then (some (hpsExpSum overSpec 5 10), 10)
        else (some 0, 5) from rfl, hexp10, if_neg (by norm_num)]
    rw [h6, h7, h8, h9, h10]
  have hfund : harmonicProductSpectrum overSpec 2048 512 5 = 20 := by
    rw [harmonicProductSpectrum, hpsPeakBin_eq_Q, hbinq]
    norm_num
  have hfsp : findSpectralPeaks overSpec 2048 512 (-60) 5 = overPeaks := rfl
  have hcls : (classifyHarmonics 20 overPeaks).length = 11 := by
    rw [classifyHarmonics, show overPeaks.take 16 = overPeaks from rfl, overPeaks]
    simp only [List.foldl_cons, List.foldl_nil]
    norm_num [jsRound]
  have hconf : (detectOvertones overSpec 2048 512).confidence =
      if 0 < (findSpectralPeaks overSpec 2048 512 (-60) 5).length then
        ((classifyHarmonics (harmonicProductSpectrum overSpec 2048 512 5)
          (findSpectralPeaks overSpec 2048 512 (-60) 5)).length : ℚ) /
          ((min (findSpectralPeaks overSpec 2048 512 (-60) 5).length 10 : ℕ) : ℚ)
      else 0 := rfl
  rw [hconf, hfund, hfsp, show overPeaks.length = 11 from rfl, if_pos (by norm_num),
    hcls, show (min 11 10 : ℕ) = 10 from rfl]
  norm_num

end Resonara
